import Mathlib

/-!
Verification of the `factorio_data` codec (file `factorio_data.py`): a binary
codec for the game's `mod-settings.dat` format (nullable length-prefixed byte
strings, a recursive tagged `PropertyTree`, a versioned `ModSettings`
envelope) together with its JSON text layer (`JSONEncoder.default` /
`JSONDecoder.object_hook`).

Embedding conventions:
* A binary stream is a `List Nat` of byte values; `stream.read n` returns up
  to `n` bytes (`List.take`), exactly as Python file objects do at end of
  input.  `struct.unpack` demands an exact buffer, so a short read at an
  `unpack` site is an error (Python raises `struct.error`).
* Python runtime values reachable in this program are modelled by the single
  dynamic type `PyVal` (the program passes `None`, `bool`, `int`, `float`,
  `str`, `bytes`, `list`, `dict` and its three classes around dynamically).
* Python `float` is modelled by its exact IEEE-754 binary64 representation,
  as the list of the 8 bytes of its little-endian memory form.
  `struct.pack`/`unpack` of format `d` move those bytes verbatim, so the
  binary layer never interprets them; Python `==` on floats is interpreted
  on the representation (`floatEqBits`, `intEqFloat` below).
* Python `str` values are represented by their UTF-8 encoding as a byte
  list (a faithful bijection on the strings this program can see);
  `str.encode` is then the identity and `bytes.decode` is a guard on UTF-8
  validity.
* Exceptions are modelled with `Except PyErr`; `PyErr` names the Python
  exception class raised at each site.
-/

/-- Python exception classes raised by the codec paths under study.
`structError` is `struct.error` (the TruncatedInput kind of the design
document), `valueError` is the `ValueError` from `PropertyTree.Type(raw)` on
an unknown tag (the InvalidFormat kind), `versionTooLow` is the bare
`Exception` raised by `ModSettings.load` (the UnsupportedVersion kind),
`unicodeError` covers `UnicodeDecodeError`/`UnicodeEncodeError` (the
EncodingError kind), `unknownObjectType` is the bare `Exception` raised by
`object_hook` on an unrecognized discriminator, and `recursionError` stands
for Python's `RecursionError` (the decoder recurses once per tree level). -/
inductive PyErr where
  | structError
  | valueError
  | versionTooLow
  | unicodeError
  | unknownObjectType
  | notImplementedError
  | attributeError
  | keyError
  | typeError
  | recursionError
deriving DecidableEq, Repr

/-- The six `PropertyTree.Type` enum members, with their wire tags 0..5. -/
inductive PTType where
  | null
  | bool
  | number
  | string
  | list
  | dictionary
deriving DecidableEq, Repr

/-- Wire tag of a `PropertyTree.Type` member (`self.type.value`). -/
def PTType.tag : PTType → Nat
  | .null => 0
  | .bool => 1
  | .number => 2
  | .string => 3
  | .list => 4
  | .dictionary => 5

/-- Inverse of `PTType.tag`: the `PropertyTree.Type(value_type_raw)` enum
constructor, which raises `ValueError` on an unknown tag. -/
def PTType.ofTag : Nat → Except PyErr PTType
  | 0 => .ok .null
  | 1 => .ok .bool
  | 2 => .ok .number
  | 3 => .ok .string
  | 4 => .ok .list
  | 5 => .ok .dictionary
  | _ => .error .valueError

/-- Dynamic Python values reachable in this program.

* `pynone`, `pybool`, `pyint`, `pyfloat`, `pystr`, `pybytes`, `pylist`,
  `pydict` are the builtin values (floats by their 8 little-endian bytes,
  strings by their UTF-8 bytes, dict entries in insertion order with unique
  keys when built by this program);
* `istr v` is `ImmutableString(v)` with `value = v` (`none` models `None`);
* `ptree key value type any_type` is a `PropertyTree` instance; its `key`
  field always holds an `ImmutableString`, modelled by the `Option` of its
  `value` field (the constructor turns `key = None` into
  `ImmutableString(None)`);
* `msettings data version has_quality` is a `ModSettings` instance;
  `version` is the tuple's elements in order. -/
inductive PyVal where
  | pynone
  | pybool (b : Bool)
  | pyint (n : Int)
  | pyfloat (bits : List Nat)
  | pystr (s : List Nat)
  | pybytes (bs : List Nat)
  | pylist (xs : List PyVal)
  | pydict (kvs : List (List Nat × PyVal))
  | istr (value : Option (List Nat))
  | ptree (key : Option (List Nat)) (value : PyVal) (ty : PTType) (anyType : Bool)
  | msettings (data : PyVal) (version : List PyVal) (hasQuality : PyVal)
deriving Repr

/-- Python `stream.read n` on a byte list: up to `n` bytes plus the rest. -/
def streamRead (n : Nat) (s : List Nat) : List Nat × List Nat :=
  (s.take n, s.drop n)

/-- A `struct.unpack` site fed from `stream.read n`: `unpack` raises
`struct.error` unless the buffer holds exactly `n` bytes. -/
def readExact (n : Nat) (s : List Nat) : Except PyErr (List Nat × List Nat) :=
  if s.length < n then .error .structError else .ok (s.take n, s.drop n)

/-- Little-endian decoding of a byte list into an unsigned integer. -/
def leDec : List Nat → Nat
  | [] => 0
  | b :: rest => b + 256 * leDec rest

/-- The two bytes of `struct.pack` format `<H` (caller keeps `n < 2 ^ 16`). -/
def le16 (n : Nat) : List Nat := [n % 256, n / 256 % 256]

/-- The four bytes of `struct.pack` format `<I` (caller keeps `n < 2 ^ 32`). -/
def le32 (n : Nat) : List Nat :=
  [n % 256, n / 256 % 256, n / 2 ^ 16 % 256, n / 2 ^ 24 % 256]

/-- Python method `ImmutableString.load(stream)`: one flag byte (any nonzero
byte means the value is `None`), then a one-byte length with `0xff` escaping
to a four-byte little-endian length, then the value bytes.  The final value
read is a bare `stream.read(value_len)` with no length check, so it yields
however many bytes remain when the stream is short. -/
def ImmutableString.load (s : List Nat) :
    Except PyErr (Option (List Nat) × List Nat) := do
  let (flag, s) ← readExact 1 s
  if flag.headI ≠ 0 then
    return (none, s)
  else
    let (lenB, s) ← readExact 1 s
    let lenN := lenB.headI
    if lenN = 0xff then
      let (len4, s) ← readExact 4 s
      let (v, s) := streamRead (leDec len4) s
      return (some v, s)
    else
      let (v, s) := streamRead lenN s
      return (some v, s)

/-- Python method `ImmutableString.save(stream)`: flag byte
`pack("<B", self.value is None)`, then for a present value the length
(single byte below `0xff`, else `0xff` plus four length bytes) and the raw
bytes.  `struct.pack` would raise above `2 ^ 32`; values of that size are
excluded by the well-formedness hypotheses of the theorems below. -/
def ImmutableString.save : Option (List Nat) → List Nat
  | none => [1]
  | some bs =>
      if bs.length ≥ 0xff then
        0 :: 0xff :: le32 bs.length ++ bs
      else
        0 :: bs.length :: bs

/-- Python statement `item.key = key` after a recursive child decode: the
decoder overwrites the child's key attribute (children returned by
`PropertyTree.load` are always `PropertyTree` instances). -/
def PyVal.setKey : PyVal → Option (List Nat) → PyVal
  | .ptree _ v ty anyType, k => .ptree k v ty anyType
  | other, _ => other

mutual

/-- Python classmethod `PropertyTree.load(stream)`: two header bytes
(`type` tag — an unknown tag raises `ValueError` from the enum constructor —
and `any_type`, made a `bool`), then the payload by type: nothing for Null,
one byte for Bool (nonzero is true), eight raw bytes for Number
(`unpack("<d")` then `pack("<d")` reproduce the same eight bytes, so the
double is kept as its representation), an `ImmutableString` for String, and
for List/Dictionary a four-byte count followed by that many key plus subtree
pairs, the decoded key overwriting each subtree's own key.  The `fuel`
argument bounds the recursion depth, decreasing once per nesting level
exactly as the Python call stack does; exhaustion is Python's
`RecursionError` and is unreachable for fuel exceeding the stream length
(each level consumes at least two bytes). -/
def PropertyTree.loadF : Nat → List Nat → Except PyErr (PyVal × List Nat)
  | 0, _ => .error .recursionError
  | f + 1, s => do
    let (hdr, s) ← readExact 2 s
    let ty ← PTType.ofTag hdr.headI
    let anyType := (hdr.drop 1).headI ≠ 0
    match ty with
    | .null => return (.ptree none .pynone .null anyType, s)
    | .bool => do
        let (b, s) ← readExact 1 s
        return (.ptree none (.pybool (b.headI ≠ 0)) .bool anyType, s)
    | .number => do
        let (bits, s) ← readExact 8 s
        return (.ptree none (.pyfloat bits) .number anyType, s)
    | .string => do
        let (v, s) ← ImmutableString.load s
        return (.ptree none (.istr v) .string anyType, s)
    | .list => do
        let (cnt, s) ← readExact 4 s
        let (items, s) ← PropertyTree.loadItemsF f (leDec cnt) s
        return (.ptree none (.pylist items) .list anyType, s)
    | .dictionary => do
        let (cnt, s) ← readExact 4 s
        let (items, s) ← PropertyTree.loadItemsF f (leDec cnt) s
        return (.ptree none (.pylist items) .dictionary anyType, s)
termination_by f s => (f, 0)

/-- The `for _ in range(count)` loop of `PropertyTree.load`: per entry, an
`ImmutableString` key, a recursive subtree, then `item.key = key`. -/
def PropertyTree.loadItemsF : Nat → Nat → List Nat → Except PyErr (List PyVal × List Nat)
  | _, 0, s => .ok ([], s)
  | f, n + 1, s => do
    let (k, s) ← ImmutableString.load s
    let (item, s) ← PropertyTree.loadF f s
    let (items, s) ← PropertyTree.loadItemsF f n s
    .ok (item.setKey k :: items, s)
termination_by f n _ => (f, n + 1)

end

/-- Entry point `PropertyTree.load(stream)` with enough fuel for any input:
the recursion goes at most one level deeper per two consumed bytes, so
`s.length + 1` levels can never be exhausted. -/
def PropertyTree.load (s : List Nat) : Except PyErr (PyVal × List Nat) :=
  PropertyTree.loadF (s.length + 1) s

mutual

/-- Python method `PropertyTree.save(stream)`: the two header bytes, then
the payload by type, the inverse of `PropertyTree.load`.  Payloads of a
shape the program's own loaders never construct (for example a Bool node
whose value is not a `bool`) are the sites where `struct.pack` or an
attribute lookup would raise in Python; they are mapped to the matching
error and are excluded by the well-formedness predicate used below. -/
def PropertyTree.save : PyVal → Except PyErr (List Nat)
  | .ptree _ v ty anyType => do
    let hdr := [ty.tag, if anyType then 1 else 0]
    match ty, v with
    | .null, _ => pure hdr
    | .bool, .pybool b => pure (hdr ++ [if b then 1 else 0])
    | .bool, .pyint n =>
        if 0 ≤ n ∧ n < 256 then pure (hdr ++ [n.toNat]) else .error .structError
    | .bool, _ => .error .structError
    | .number, .pyfloat bits => pure (hdr ++ bits)
    | .number, _ => .error .structError
    | .string, .istr v => pure (hdr ++ ImmutableString.save v)
    | .string, _ => .error .attributeError
    | .list, .pylist xs => do pure (hdr ++ le32 xs.length ++ (← PropertyTree.saveItems xs))
    | .dictionary, .pylist xs => do pure (hdr ++ le32 xs.length ++ (← PropertyTree.saveItems xs))
    | .list, _ => .error .typeError
    | .dictionary, _ => .error .typeError
  | _ => .error .attributeError

/-- The `for item in self.value` loop of `PropertyTree.save`: each item
writes its key (`item.key.save`) and then its own encoding; a non-tree item
has no `key` attribute. -/
def PropertyTree.saveItems : List PyVal → Except PyErr (List Nat)
  | [] => pure []
  | x :: xs =>
    match x with
    | .ptree k _ _ _ => do
        pure (ImmutableString.save k ++ (← PropertyTree.save x) ++ (← PropertyTree.saveItems xs))
    | _ => .error .attributeError

end

/-- Byte pair `2 * i` of an `unpack("<HHHH")` buffer, as an unsigned 16-bit
little-endian integer. -/
def u16 (l : List Nat) (i : Nat) : Nat :=
  (l.drop (2 * i)).headI + 256 * (l.drop (2 * i + 1)).headI

/-- Python tuple comparison `(a, b, c, d) < (a2, b2, c2, d2)`: lexicographic
over the components. -/
def tupleLt4 (a b c d a2 b2 c2 d2 : Nat) : Bool :=
  a < a2 || (a = a2 && (b < b2 || (b = b2 && (c < c2 || (c = c2 && d < d2)))))

/-- Python classmethod `ModSettings.load(stream)`: four unsigned 16-bit
version components, one `has_quality` byte, then the whole root
`PropertyTree`, and only after all of that the check
`version < (0, 18, 0, 0)`. -/
def ModSettings.load (s : List Nat) : Except PyErr (PyVal × List Nat) := do
  let (vb, s) ← readExact 8 s
  let (qb, s) ← readExact 1 s
  let (data, s) ← PropertyTree.load s
  if tupleLt4 (u16 vb 0) (u16 vb 1) (u16 vb 2) (u16 vb 3) 0 18 0 0 then
    .error .versionTooLow
  else
    .ok (.msettings data
          [.pyint (u16 vb 0), .pyint (u16 vb 1), .pyint (u16 vb 2), .pyint (u16 vb 3)]
          (.pybool (qb.headI ≠ 0)), s)

/-- Python `struct.pack("<HHHH", *self.version)`: exactly four integer
components, each in unsigned 16-bit range, else `struct.error`. -/
def packVersion : List PyVal → Except PyErr (List Nat)
  | [.pyint a, .pyint b, .pyint c, .pyint d] =>
      if 0 ≤ a ∧ a < 2 ^ 16 ∧ 0 ≤ b ∧ b < 2 ^ 16 ∧ 0 ≤ c ∧ c < 2 ^ 16 ∧ 0 ≤ d ∧ d < 2 ^ 16 then
        pure (le16 a.toNat ++ le16 b.toNat ++ le16 c.toNat ++ le16 d.toNat)
      else .error .structError
  | _ => .error .structError

/-- Python `struct.pack("<B", x)` for a boolean or small-integer `x`. -/
def packByte : PyVal → Except PyErr (List Nat)
  | .pybool b => pure [if b then 1 else 0]
  | .pyint n => if 0 ≤ n ∧ n < 256 then pure [n.toNat] else .error .structError
  | _ => .error .structError

/-- Python method `ModSettings.save(stream)`: the four version components,
the `has_quality` byte, then the encoded root tree. -/
def ModSettings.save : PyVal → Except PyErr (List Nat)
  | .msettings data version hq => do
      let vb ← packVersion version
      let qb ← packByte hq
      let db ← PropertyTree.save data
      pure (vb ++ qb ++ db)
  | _ => .error .attributeError

/-- Reading exactly the length of a leading block returns that block. -/
theorem readExact_append (n : Nat) (l rest : List Nat) (h : l.length = n) :
    readExact n (l ++ rest) = .ok (l, rest) := by
  unfold readExact
  rw [if_neg (by simp [h])]
  rw [List.take_left' h, List.drop_left' h]

/-- Little-endian four-byte encoding decodes to the value below `2 ^ 32`. -/
theorem leDec_le32 (n : Nat) (h : n < 2 ^ 32) : leDec (le32 n) = n := by
  simp [le32, leDec]
  omega

/-- Saving then loading an `ImmutableString` returns the same value and
leaves trailing input untouched, for values below the four-byte length
limit. -/
theorem ImmutableString.load_save (v : Option (List Nat)) (rest : List Nat)
    (h : ∀ bs, v = some bs → bs.length < 2 ^ 32) :
    ImmutableString.load (ImmutableString.save v ++ rest) = .ok (v, rest) := by
  match v with
  | none =>
      simp [ImmutableString.save, ImmutableString.load, readExact, Except.bind, Bind.bind,
            Pure.pure, Except.pure]
  | some bs =>
      by_cases hlen : bs.length ≥ 0xff
      · have e : ImmutableString.save (some bs) ++ rest
            = 0 :: 255 :: (le32 bs.length ++ (bs ++ rest)) := by
          simp only [ImmutableString.save, if_pos hlen]
          simp
        rw [e, ImmutableString.load]
        have h1 : readExact 1 (0 :: 255 :: (le32 bs.length ++ (bs ++ rest))) =
            .ok ([0], 255 :: (le32 bs.length ++ (bs ++ rest))) :=
          readExact_append 1 [0] _ rfl
        have h2 : readExact 1 (255 :: (le32 bs.length ++ (bs ++ rest))) =
            .ok ([255], le32 bs.length ++ (bs ++ rest)) :=
          readExact_append 1 [255] _ rfl
        have h4 : readExact 4 (le32 bs.length ++ (bs ++ rest)) =
            .ok (le32 bs.length, bs ++ rest) :=
          readExact_append 4 _ _ (by simp [le32])
        have hdec : leDec (le32 bs.length) = bs.length := leDec_le32 _ (h bs rfl)
        simp [h1, h2, h4, hdec, streamRead, Except.bind, Bind.bind, Pure.pure, Except.pure,
              List.take_left, List.drop_left]
      · have e : ImmutableString.save (some bs) ++ rest = 0 :: bs.length :: (bs ++ rest) := by
          simp only [ImmutableString.save, if_neg hlen]
          simp
        rw [e, ImmutableString.load]
        have hne : bs.length ≠ 0xff := by omega
        simp [readExact, streamRead, hne, Except.bind, Bind.bind, Pure.pure, Except.pure,
              List.take_left, List.drop_left]

/-- Claim C7: a present `ImmutableString` value of length 254 saves with the
single-byte length form, lengths 255 and 256 save with the escape form
(`0xff` then the four-byte little-endian length), and in all three cases
loading the saved bytes returns the same value, leaving trailing input
untouched. -/
theorem immutableString_length_escape_boundary (bs rest : List Nat) :
    (bs.length = 254 → ImmutableString.save (some bs) = 0 :: 254 :: bs) ∧
    (bs.length = 255 ∨ bs.length = 256 →
      ImmutableString.save (some bs) = 0 :: 0xff :: le32 bs.length ++ bs) ∧
    (bs.length = 254 ∨ bs.length = 255 ∨ bs.length = 256 →
      ImmutableString.load (ImmutableString.save (some bs) ++ rest) = .ok (some bs, rest)) := by
  refine ⟨?_, ?_, ?_⟩
  · intro h
    simp only [ImmutableString.save]
    rw [if_neg (by omega), h]
  · intro h
    simp only [ImmutableString.save]
    rw [if_pos (by omega)]
  · intro _
    exact ImmutableString.load_save (some bs) rest (by intro l hl; cases hl; omega)

/-- Witness for claim C7 at lengths 254, 255 and 256. -/
theorem immutableString_length_escape_boundary_witness :
    (ImmutableString.save (some (List.replicate 254 7)) = 0 :: 254 :: List.replicate 254 7 ∧
      ImmutableString.load (ImmutableString.save (some (List.replicate 254 7)) ++ [9]) =
        .ok (some (List.replicate 254 7), [9])) ∧
    (ImmutableString.save (some (List.replicate 255 7)) =
        0 :: 0xff :: le32 255 ++ List.replicate 255 7 ∧
      ImmutableString.load (ImmutableString.save (some (List.replicate 255 7)) ++ [9]) =
        .ok (some (List.replicate 255 7), [9])) ∧
    (ImmutableString.save (some (List.replicate 256 7)) =
        0 :: 0xff :: le32 256 ++ List.replicate 256 7 ∧
      ImmutableString.load (ImmutableString.save (some (List.replicate 256 7)) ++ [9]) =
        .ok (some (List.replicate 256 7), [9])) := by
  refine ⟨⟨?_, ?_⟩, ⟨?_, ?_⟩, ⟨?_, ?_⟩⟩
  · exact (immutableString_length_escape_boundary (List.replicate 254 7) [9]).1
      (by simp only [List.length_replicate])
  · exact (immutableString_length_escape_boundary (List.replicate 254 7) [9]).2.2
      (Or.inl (by simp only [List.length_replicate]))
  · have := (immutableString_length_escape_boundary (List.replicate 255 7) [9]).2.1
      (Or.inl (by simp only [List.length_replicate]))
    simpa only [List.length_replicate] using this
  · exact (immutableString_length_escape_boundary (List.replicate 255 7) [9]).2.2
      (Or.inr (Or.inl (by simp only [List.length_replicate])))
  · have := (immutableString_length_escape_boundary (List.replicate 256 7) [9]).2.1
      (Or.inr (by simp only [List.length_replicate]))
    simpa only [List.length_replicate] using this
  · exact (immutableString_length_escape_boundary (List.replicate 256 7) [9]).2.2
      (Or.inr (Or.inr (by simp only [List.length_replicate])))

/-- Claim C8: the absent value and the empty present value serialize to
distinct byte sequences, and each deserializes back to its own state. -/
theorem immutableString_none_vs_empty :
    ImmutableString.save none ≠ ImmutableString.save (some []) ∧
    ImmutableString.load (ImmutableString.save none) = .ok (none, []) ∧
    ImmutableString.load (ImmutableString.save (some [])) = .ok (some [], []) := by
  refine ⟨by decide, by rfl, by rfl⟩

/-- Claim C3 is violated by the code: on the stream `[0x00, 0x05, 0x61]`,
which declares a five-byte value but ends after one byte, `load` returns the
one-byte string `[0x61]` without any error, because the final
`stream.read(value_len)` is never length-checked.  (Truncation inside the
flag, length, or escape fields does raise `struct.error`.) -/
theorem immutableString_load_truncated_value_no_error :
    ImmutableString.load [0, 5, 97] = .ok (some [97], []) ∧ [97].length < 5 := by
  exact ⟨by rfl, by decide⟩

/-- Claim C6: on a document whose tree body decodes, `ModSettings.load`
fails with the version error exactly when the decoded version tuple is
lexicographically below `(0, 18, 0, 0)`, and otherwise returns the envelope. -/
theorem modSettings_load_version_gate (a b c d q : Nat) (body : List Nat)
    (m : PyVal) (rest : List Nat)
    (ha : a < 2 ^ 16) (hb : b < 2 ^ 16) (hc : c < 2 ^ 16) (hd : d < 2 ^ 16)
    (hbody : PropertyTree.load body = .ok (m, rest)) :
    ModSettings.load (le16 a ++ le16 b ++ le16 c ++ le16 d ++ q :: body) =
      if tupleLt4 a b c d 0 18 0 0 then .error .versionTooLow
      else
        .ok (.msettings m [.pyint a, .pyint b, .pyint c, .pyint d] (.pybool (q ≠ 0)), rest) := by
  have e : le16 a ++ le16 b ++ le16 c ++ le16 d ++ q :: body
      = (le16 a ++ le16 b ++ le16 c ++ le16 d) ++ ([q] ++ body) := by simp
  rw [e, ModSettings.load]
  have h8 : readExact 8 ((le16 a ++ le16 b ++ le16 c ++ le16 d) ++ ([q] ++ body)) =
      .ok (le16 a ++ le16 b ++ le16 c ++ le16 d, [q] ++ body) :=
    readExact_append 8 _ _ (by simp [le16])
  have h1 : readExact 1 ([q] ++ body) = .ok ([q], body) := readExact_append 1 [q] _ rfl
  have hu0 : u16 (le16 a ++ le16 b ++ le16 c ++ le16 d) 0 = a := by
    simp [u16, le16]
    omega
  have hu1 : u16 (le16 a ++ le16 b ++ le16 c ++ le16 d) 1 = b := by
    simp [u16, le16]
    omega
  have hu2 : u16 (le16 a ++ le16 b ++ le16 c ++ le16 d) 2 = c := by
    simp [u16, le16]
    omega
  have hu3 : u16 (le16 a ++ le16 b ++ le16 c ++ le16 d) 3 = d := by
    simp [u16, le16]
    omega
  simp only [h8, h1, hu0, hu1, hu2, hu3, hbody, Except.bind, Bind.bind, List.headI]

/-- Witness for claim C6: version `(0, 17, 99, 0)` is rejected with the
version error, and the otherwise identical document with version
`(0, 18, 0, 0)` decodes successfully. -/
theorem modSettings_load_version_gate_witness :
    ModSettings.load (le16 0 ++ le16 17 ++ le16 99 ++ le16 0 ++ 0 :: [0, 0]) =
      .error .versionTooLow ∧
    ModSettings.load (le16 0 ++ le16 18 ++ le16 0 ++ le16 0 ++ 0 :: [0, 0]) =
      .ok (.msettings (.ptree none .pynone .null false)
            [.pyint 0, .pyint 18, .pyint 0, .pyint 0] (.pybool false), []) := by
  have hb : PropertyTree.load [0, 0] = .ok (.ptree none .pynone .null false, []) := by
    simp [PropertyTree.load, PropertyTree.loadF, readExact, PTType.ofTag,
          Except.bind, Except.map, Bind.bind, Functor.map, Pure.pure, Except.pure]
  constructor
  · have h := modSettings_load_version_gate 0 17 99 0 0 [0, 0] _ []
      (by decide) (by decide) (by decide) (by decide) hb
    rw [h]
    simp [tupleLt4]
  · have h := modSettings_load_version_gate 0 18 0 0 0 [0, 0] _ []
      (by decide) (by decide) (by decide) (by decide) hb
    rw [h]
    simp [tupleLt4]

/-- Claim C10: `ModSettings.load` reads the version, the quality byte and
the entire tree body before the version comparison, so any error raised
while decoding the body surfaces as the result, whatever the version bytes
say — the version error can only occur after a full body decode. -/
theorem modSettings_load_body_error_first (a b c d q : Nat) (body : List Nat) (e : PyErr)
    (hbody : PropertyTree.load body = .error e) :
    ModSettings.load (le16 a ++ le16 b ++ le16 c ++ le16 d ++ q :: body) = .error e := by
  have has : le16 a ++ le16 b ++ le16 c ++ le16 d ++ q :: body
      = (le16 a ++ le16 b ++ le16 c ++ le16 d) ++ ([q] ++ body) := by simp
  rw [has, ModSettings.load]
  have h8 : readExact 8 ((le16 a ++ le16 b ++ le16 c ++ le16 d) ++ ([q] ++ body)) =
      .ok (le16 a ++ le16 b ++ le16 c ++ le16 d, [q] ++ body) :=
    readExact_append 8 _ _ (by simp [le16])
  have h1 : readExact 1 ([q] ++ body) = .ok ([q], body) := readExact_append 1 [q] _ rfl
  simp only [h8, h1, hbody, Except.bind, Bind.bind]

/-- Witness for claim C10: with version `(0, 0, 0, 0)` — far below the
minimum — and a body whose type tag `9` is invalid, the result is the tag's
`ValueError`, not the version error. -/
theorem modSettings_load_body_error_first_witness :
    ModSettings.load (le16 0 ++ le16 0 ++ le16 0 ++ le16 0 ++ 0 :: [9, 0]) =
      .error .valueError ∧ PyErr.valueError ≠ PyErr.versionTooLow := by
  refine ⟨?_, by decide⟩
  have hbody : PropertyTree.load [9, 0] = .error .valueError := by
    simp [PropertyTree.load, PropertyTree.loadF, readExact, PTType.ofTag,
          Except.bind, Except.map, Bind.bind, Functor.map, Pure.pure, Except.pure]
  exact modSettings_load_body_error_first 0 0 0 0 0 [9, 0] .valueError hbody

/-- Claim C1 as stated is violated by the code: the twelve-byte document
below is well formed under the documented wire grammar (version
`(0, 18, 0, 0)`, `has_quality = 0`, a Bool node whose payload byte is `2` —
the grammar reads any nonzero byte as true) and decodes completely, yet
re-encoding the decoded value writes the Bool payload back as `1`, so the
bytes differ.  Round-tripping holds only for canonical documents (see
`modSettings_roundtrip_canonical`). -/
theorem modSettings_grammar_roundtrip_counterexample :
    ModSettings.load [0, 0, 18, 0, 0, 0, 0, 0, 0, 1, 0, 2] =
      .ok (.msettings (.ptree none (.pybool true) .bool false)
            [.pyint 0, .pyint 18, .pyint 0, .pyint 0] (.pybool false), []) ∧
    ModSettings.save (.msettings (.ptree none (.pybool true) .bool false)
            [.pyint 0, .pyint 18, .pyint 0, .pyint 0] (.pybool false)) =
      .ok [0, 0, 18, 0, 0, 0, 0, 0, 0, 1, 0, 1] ∧
    ([0, 0, 18, 0, 0, 0, 0, 0, 0, 1, 0, 1] : List Nat) ≠
      [0, 0, 18, 0, 0, 0, 0, 0, 0, 1, 0, 2] := by
  refine ⟨?_, ?_, by decide⟩
  · simp [ModSettings.load, PropertyTree.load, PropertyTree.loadF, readExact, PTType.ofTag,
          Except.bind, Except.map, Bind.bind, Functor.map, Pure.pure, Except.pure, u16, tupleLt4]
  · simp [ModSettings.save, PropertyTree.save, packVersion, packByte, le16, PTType.tag,
          Except.bind, Bind.bind, Pure.pure, Except.pure]

/-- Length bound under which `struct.pack("<I", len)` is defined. -/
def lenOk : Option (List Nat) → Bool
  | none => true
  | some bs => decide (bs.length < 2 ^ 32)

/-- A dictionary or list entry must be a `PropertyTree` whose key can be
packed (`item.key.save` with a length below `2 ^ 32`). -/
def keyLenOk : PyVal → Bool
  | .ptree k _ _ _ => lenOk k
  | _ => false

mutual

/-- Well-formed binary tree values: the payload shapes `PropertyTree.save`
can write and `PropertyTree.load` can read back — exactly the shapes the
binary loader itself constructs, with the string/count length bounds of
`struct.pack`. -/
def wfTree : PyVal → Bool
  | .ptree _ v ty _ =>
    match ty, v with
    | .null, .pynone => true
    | .bool, .pybool _ => true
    | .number, .pyfloat bits => decide (bits.length = 8)
    | .string, .istr vo => lenOk vo
    | .list, .pylist xs => decide (xs.length < 2 ^ 32) && wfChildren xs
    | .dictionary, .pylist xs => decide (xs.length < 2 ^ 32) && wfChildren xs
    | _, _ => false
  | _ => false

/-- Well-formed children of a List/Dictionary node. -/
def wfChildren : List PyVal → Bool
  | [] => true
  | x :: xs => keyLenOk x && wfTree x && wfChildren xs

end

/-- Inversion for a successful `Except` bind. -/
theorem bind_eq_ok {α β : Type} {e : Except PyErr α} {f : α → Except PyErr β} {b : β} :
    e >>= f = .ok b ↔ ∃ a, e = .ok a ∧ f a = .ok b := by
  cases e <;> simp [Bind.bind, Except.bind]

/-- A boolean written with `pack("<B", bool)` reads back as itself under the
loader's nonzero test. -/
theorem anyByte_roundtrip (b : Bool) :
    (decide ((if b then 1 else 0 : Nat) ≠ 0)) = b := by
  cases b <;> simp

/-- Nonzero-byte test of the loader applied to a boolean written by
`pack("<B", bool)`, in the loader's normal form. -/
theorem anyByteNot (b : Bool) :
    (!decide ((if b then 1 else 0 : Nat) = 0)) = b := by
  cases b <;> simp

/-- Core binary round-trip: loading the bytes written by `PropertyTree.save`
(with any trailing input) returns the saved well-formed tree, except that
the root's key — which `save` never writes — comes back absent, and consumes
exactly the written bytes.  Fuel is adequate whenever it exceeds the number
of saved bytes.  Stated jointly with the corresponding property of the
child-list loop. -/
theorem propertyTree_loadF_saveF (f : Nat) :
    (∀ t bs rest, wfTree t = true → PropertyTree.save t = .ok bs → bs.length < f →
      PropertyTree.loadF f (bs ++ rest) = .ok (t.setKey none, rest)) ∧
    (∀ xs bsI rest, wfChildren xs = true → PropertyTree.saveItems xs = .ok bsI →
      bsI.length < f → PropertyTree.loadItemsF f xs.length (bsI ++ rest) = .ok (xs, rest)) := by
  induction f with
  | zero =>
      constructor
      · intro t bs rest _ _ h
        omega
      · intro xs bsI rest _ _ h
        omega
  | succ f ih =>
      have hP : ∀ t bs rest, wfTree t = true → PropertyTree.save t = .ok bs →
          bs.length < f + 1 → PropertyTree.loadF (f + 1) (bs ++ rest) = .ok (t.setKey none, rest) := by
        intro t bs rest hwf hsave hlen
        cases t with
        | ptree k v ty anyType =>
          cases ty with
          | null =>
            cases v <;> simp only [wfTree] at hwf <;> try exact absurd hwf (by decide)
            case pynone =>
              simp only [PropertyTree.save, PTType.tag] at hsave
              simp only [pure, Except.pure, Except.ok.injEq] at hsave
              subst hsave
              have h2 : readExact 2 (0 :: (if anyType then 1 else 0) :: rest) =
                  .ok ([0, if anyType then 1 else 0], rest) :=
                readExact_append 2 [0, if anyType then 1 else 0] rest rfl
              simp [PropertyTree.loadF, PTType.ofTag, h2, Except.bind, Bind.bind, Pure.pure, Except.pure,
                    PyVal.setKey, anyByteNot, List.headI]
          | bool =>
            cases v <;> simp only [wfTree] at hwf <;> try exact absurd hwf (by decide)
            case pybool b =>
              simp only [PropertyTree.save, PTType.tag] at hsave
              simp only [pure, Except.pure, Except.ok.injEq] at hsave
              subst hsave
              have h2 : readExact 2
                    (1 :: (if anyType then 1 else 0) :: (if b then 1 else 0) :: rest) =
                  .ok ([1, if anyType then 1 else 0], (if b then 1 else 0) :: rest) :=
                readExact_append 2 [1, if anyType then 1 else 0] _ rfl
              have h1 : readExact 1 ((if b then 1 else 0) :: rest) =
                  .ok ([if b then 1 else 0], rest) :=
                readExact_append 1 [if b then 1 else 0] rest rfl
              simp [PropertyTree.loadF, PTType.ofTag, h2, h1, Except.bind, Bind.bind, Pure.pure, Except.pure,
                    PyVal.setKey, anyByteNot, List.headI]
          | number =>
            cases v <;> simp only [wfTree] at hwf <;> try exact absurd hwf (by decide)
            case pyfloat bits =>
              simp only [decide_eq_true_eq] at hwf
              simp only [PropertyTree.save, PTType.tag] at hsave
              simp only [pure, Except.pure, Except.ok.injEq] at hsave
              subst hsave
              have h2 : readExact 2 (2 :: (if anyType then 1 else 0) :: (bits ++ rest)) =
                  .ok ([2, if anyType then 1 else 0], bits ++ rest) :=
                readExact_append 2 [2, if anyType then 1 else 0] _ rfl
              have h8 : readExact 8 (bits ++ rest) = .ok (bits, rest) :=
                readExact_append 8 bits rest hwf
              simp [PropertyTree.loadF, PTType.ofTag, h2, h8, Except.bind, Bind.bind, Pure.pure, Except.pure,
                    PyVal.setKey, anyByteNot, List.headI]
          | string =>
            cases v <;> simp only [wfTree] at hwf <;> try exact absurd hwf (by decide)
            case istr vo =>
              simp only [PropertyTree.save, PTType.tag] at hsave
              simp only [pure, Except.pure, Except.ok.injEq] at hsave
              subst hsave
              have h2 : readExact 2
                    (3 :: (if anyType then 1 else 0) :: (ImmutableString.save vo ++ rest)) =
                  .ok ([3, if anyType then 1 else 0], ImmutableString.save vo ++ rest) :=
                readExact_append 2 [3, if anyType then 1 else 0] _ rfl
              have hs : ImmutableString.load (ImmutableString.save vo ++ rest) = .ok (vo, rest) := by
                apply ImmutableString.load_save
                intro l hl
                subst hl
                simpa [lenOk] using hwf
              simp [PropertyTree.loadF, PTType.ofTag, h2, hs, Except.bind, Bind.bind, Pure.pure, Except.pure,
                    PyVal.setKey, anyByteNot, List.headI]
          | list =>
            cases v <;> simp only [wfTree] at hwf <;> try exact absurd hwf (by decide)
            case pylist xs =>
              simp only [Bool.and_eq_true, decide_eq_true_eq] at hwf
              simp only [PropertyTree.save, PTType.tag] at hsave
              rw [bind_eq_ok] at hsave
              obtain ⟨bsI, hsI, hpure⟩ := hsave
              simp only [pure, Except.pure, Except.ok.injEq] at hpure
              subst hpure
              simp [le32] at hlen
              have h2 : readExact 2
                    (4 :: (if anyType then 1 else 0) :: (le32 xs.length ++ (bsI ++ rest))) =
                  .ok ([4, if anyType then 1 else 0], le32 xs.length ++ (bsI ++ rest)) :=
                readExact_append 2 [4, if anyType then 1 else 0] _ rfl
              have h4 : readExact 4 (le32 xs.length ++ (bsI ++ rest)) =
                  .ok (le32 xs.length, bsI ++ rest) :=
                readExact_append 4 _ _ (by simp [le32])
              have hdec : leDec (le32 xs.length) = xs.length := leDec_le32 _ hwf.1
              have hitems : PropertyTree.loadItemsF f xs.length (bsI ++ rest) = .ok (xs, rest) :=
                ih.2 xs bsI rest hwf.2 hsI (by omega)
              simp [PropertyTree.loadF, PTType.ofTag, h2, h4, hdec, hitems, Except.bind, Bind.bind,
                    Pure.pure, Except.pure, PyVal.setKey, anyByteNot, List.headI]
          | dictionary =>
            cases v <;> simp only [wfTree] at hwf <;> try exact absurd hwf (by decide)
            case pylist xs =>
              simp only [Bool.and_eq_true, decide_eq_true_eq] at hwf
              simp only [PropertyTree.save, PTType.tag] at hsave
              rw [bind_eq_ok] at hsave
              obtain ⟨bsI, hsI, hpure⟩ := hsave
              simp only [pure, Except.pure, Except.ok.injEq] at hpure
              subst hpure
              simp [le32] at hlen
              have h2 : readExact 2
                    (5 :: (if anyType then 1 else 0) :: (le32 xs.length ++ (bsI ++ rest))) =
                  .ok ([5, if anyType then 1 else 0], le32 xs.length ++ (bsI ++ rest)) :=
                readExact_append 2 [5, if anyType then 1 else 0] _ rfl
              have h4 : readExact 4 (le32 xs.length ++ (bsI ++ rest)) =
                  .ok (le32 xs.length, bsI ++ rest) :=
                readExact_append 4 _ _ (by simp [le32])
              have hdec : leDec (le32 xs.length) = xs.length := leDec_le32 _ hwf.1
              have hitems : PropertyTree.loadItemsF f xs.length (bsI ++ rest) = .ok (xs, rest) :=
                ih.2 xs bsI rest hwf.2 hsI (by omega)
              simp [PropertyTree.loadF, PTType.ofTag, h2, h4, hdec, hitems, Except.bind, Bind.bind,
                    Pure.pure, Except.pure, PyVal.setKey, anyByteNot, List.headI]
        | pynone => simp [wfTree] at hwf
        | pybool b => simp [wfTree] at hwf
        | pyint n => simp [wfTree] at hwf
        | pyfloat bits => simp [wfTree] at hwf
        | pystr s => simp [wfTree] at hwf
        | pybytes bs2 => simp [wfTree] at hwf
        | pylist xs => simp [wfTree] at hwf
        | pydict kvs => simp [wfTree] at hwf
        | istr v => simp [wfTree] at hwf
        | msettings d v q => simp [wfTree] at hwf
      refine ⟨hP, ?_⟩
      intro xs
      induction xs with
      | nil =>
          intro bsI rest _ hs _
          simp only [PropertyTree.saveItems, pure, Except.pure, Except.ok.injEq] at hs
          subst hs
          simp [PropertyTree.loadItemsF]
      | cons x xs ihxs =>
          intro bsI rest hwfc hs hlen
          simp only [wfChildren, Bool.and_eq_true] at hwfc
          obtain ⟨⟨hkx, hwx⟩, hwxs⟩ := hwfc
          cases x <;> simp only [keyLenOk] at hkx <;> try exact absurd hkx (by decide)
          case ptree kx vx tyx ax =>
            simp only [PropertyTree.saveItems] at hs
            rw [bind_eq_ok] at hs
            obtain ⟨bsx, hbsx, hs⟩ := hs
            rw [bind_eq_ok] at hs
            obtain ⟨bsI2, hbsI2, hpure⟩ := hs
            simp only [pure, Except.pure, Except.ok.injEq] at hpure
            subst hpure
            simp only [List.length_append] at hlen
            have hk : ImmutableString.load
                  (ImmutableString.save kx ++ (bsx ++ (bsI2 ++ rest))) =
                .ok (kx, bsx ++ (bsI2 ++ rest)) := by
              apply ImmutableString.load_save
              intro l hl
              subst hl
              simpa [lenOk] using hkx
            have hx : PropertyTree.loadF (f + 1) (bsx ++ (bsI2 ++ rest)) =
                .ok ((PyVal.ptree kx vx tyx ax).setKey none, bsI2 ++ rest) :=
              hP _ _ _ hwx hbsx (by omega)
            have hxs : PropertyTree.loadItemsF (f + 1) xs.length (bsI2 ++ rest) =
                .ok (xs, rest) :=
              ihxs _ _ hwxs hbsI2 (by omega)
            simp [PropertyTree.loadItemsF, hk, hx, hxs, Except.bind, Bind.bind,
                  Pure.pure, Except.pure, PyVal.setKey]

/-- Entry-point form of the binary round-trip: `PropertyTree.load` of saved
bytes plus trailing input returns the tree (root key absent) and the
trailing input. -/
theorem propertyTree_load_save (t : PyVal) (bs rest : List Nat)
    (hwf : wfTree t = true) (hsave : PropertyTree.save t = .ok bs) :
    PropertyTree.load (bs ++ rest) = .ok (t.setKey none, rest) := by
  unfold PropertyTree.load
  apply (propertyTree_loadF_saveF ((bs ++ rest).length + 1)).1 t bs rest hwf hsave
  simp only [List.length_append]
  omega

/-- On well-formed trees the saver always succeeds (no `struct.pack` range
error and no attribute error is reachable). -/
theorem propertyTree_save_ok_aux (n : Nat) :
    (∀ t : PyVal, sizeOf t ≤ n → wfTree t = true → ∃ bs, PropertyTree.save t = .ok bs) ∧
    (∀ xs : List PyVal, sizeOf xs ≤ n → wfChildren xs = true →
      ∃ bsI, PropertyTree.saveItems xs = .ok bsI) := by
  induction n using Nat.strong_induction_on with
  | _ n ih =>
    constructor
    · intro t hsz hwf
      cases t with
      | ptree k v ty anyType =>
        cases ty with
        | null =>
          cases v <;> simp only [wfTree] at hwf <;> try exact absurd hwf (by decide)
          case pynone =>
            simp [PropertyTree.save, pure, Except.pure]
        | bool =>
          cases v <;> simp only [wfTree] at hwf <;> try exact absurd hwf (by decide)
          case pybool b =>
            simp [PropertyTree.save, pure, Except.pure]
        | number =>
          cases v <;> simp only [wfTree] at hwf <;> try exact absurd hwf (by decide)
          case pyfloat bits =>
            simp [PropertyTree.save, pure, Except.pure]
        | string =>
          cases v <;> simp only [wfTree] at hwf <;> try exact absurd hwf (by decide)
          case istr vo =>
            simp [PropertyTree.save, pure, Except.pure]
        | list =>
          cases v <;> simp only [wfTree] at hwf <;> try exact absurd hwf (by decide)
          case pylist xs =>
            simp only [Bool.and_eq_true, decide_eq_true_eq] at hwf
            have hxs : sizeOf xs < n := by
              have : sizeOf xs < sizeOf (PyVal.ptree k (PyVal.pylist xs) PTType.list anyType) := by
                simp
                omega
              omega
            obtain ⟨bsI, hI⟩ := (ih (sizeOf xs) hxs).2 xs le_rfl hwf.2
            simp [PropertyTree.save, hI, pure, Except.pure, Except.bind, Bind.bind]
        | dictionary =>
          cases v <;> simp only [wfTree] at hwf <;> try exact absurd hwf (by decide)
          case pylist xs =>
            simp only [Bool.and_eq_true, decide_eq_true_eq] at hwf
            have hxs : sizeOf xs < n := by
              have : sizeOf xs <
                  sizeOf (PyVal.ptree k (PyVal.pylist xs) PTType.dictionary anyType) := by
                simp
                omega
              omega
            obtain ⟨bsI, hI⟩ := (ih (sizeOf xs) hxs).2 xs le_rfl hwf.2
            simp [PropertyTree.save, hI, pure, Except.pure, Except.bind, Bind.bind]
      | pynone => simp [wfTree] at hwf
      | pybool b => simp [wfTree] at hwf
      | pyint m => simp [wfTree] at hwf
      | pyfloat bits => simp [wfTree] at hwf
      | pystr s => simp [wfTree] at hwf
      | pybytes bs2 => simp [wfTree] at hwf
      | pylist xs => simp [wfTree] at hwf
      | pydict kvs => simp [wfTree] at hwf
      | istr v => simp [wfTree] at hwf
      | msettings d v q => simp [wfTree] at hwf
    · intro xs hsz hwfc
      cases xs with
      | nil =>
        simp [PropertyTree.saveItems, pure, Except.pure]
      | cons x xs2 =>
        simp only [wfChildren, Bool.and_eq_true] at hwfc
        obtain ⟨⟨hkx, hwx⟩, hwxs⟩ := hwfc
        have hx : sizeOf x < n := by
          have : sizeOf x < sizeOf (x :: xs2) := by
            simp
            omega
          omega
        have hx2 : sizeOf xs2 < n := by
          have : sizeOf xs2 < sizeOf (x :: xs2) := by
            simp
            try omega
          omega
        obtain ⟨bsx, hbx⟩ := (ih (sizeOf x) hx).1 x le_rfl hwx
        obtain ⟨bsI2, hb2⟩ := (ih (sizeOf xs2) hx2).2 xs2 le_rfl hwxs
        cases x <;> simp only [keyLenOk] at hkx <;> try exact absurd hkx (by decide)
        case ptree kx vx tyx ax =>
          simp [PropertyTree.saveItems, hbx, hb2, pure, Except.pure, Except.bind, Bind.bind]

/-- On well-formed trees the saver always succeeds. -/
theorem propertyTree_save_ok (t : PyVal) (hwf : wfTree t = true) :
    ∃ bs, PropertyTree.save t = .ok bs :=
  (propertyTree_save_ok_aux (sizeOf t)).1 t le_rfl hwf

/-- Well-formed `ModSettings` values: the shapes `ModSettings.save` can
write and `ModSettings.load` can read back — a version tuple of four
integers in unsigned 16-bit range not lexicographically below
`(0, 18, 0, 0)`, a boolean `has_quality`, and a well-formed root tree whose
key is absent (the loader never produces a root key, and the saver never
writes one). -/
def wfMS (V : PyVal) : Prop :=
  ∃ data a b c d q,
    V = .msettings data [.pyint a, .pyint b, .pyint c, .pyint d] (.pybool q) ∧
    0 ≤ a ∧ a < 2 ^ 16 ∧ 0 ≤ b ∧ b < 2 ^ 16 ∧ 0 ≤ c ∧ c < 2 ^ 16 ∧ 0 ≤ d ∧ d < 2 ^ 16 ∧
    tupleLt4 a.toNat b.toNat c.toNat d.toNat 0 18 0 0 = false ∧
    (∃ v ty anyType, data = .ptree none v ty anyType) ∧ wfTree data = true

/-- Loading the bytes saved from a well-formed `ModSettings` value returns
that exact value and consumes the whole stream. -/
theorem modSettings_load_after_save (V : PyVal) (bs : List Nat)
    (hwf : wfMS V) (hsave : ModSettings.save V = .ok bs) :
    ModSettings.load bs = .ok (V, []) := by
  obtain ⟨data, a, b, c, d, q, rfl, ha0, ha, hb0, hb, hc0, hc, hd0, hd, hver, hshape, hwfd⟩ := hwf
  simp only [ModSettings.save] at hsave
  rw [bind_eq_ok] at hsave
  obtain ⟨vb, hvb, hsave⟩ := hsave
  rw [bind_eq_ok] at hsave
  obtain ⟨qb, hqb, hsave⟩ := hsave
  rw [bind_eq_ok] at hsave
  obtain ⟨db, hdb, hsave⟩ := hsave
  simp only [pure, Except.pure, Except.ok.injEq] at hsave
  subst hsave
  simp only [packVersion] at hvb
  rw [if_pos ⟨ha0, ha, hb0, hb, hc0, hc, hd0, hd⟩] at hvb
  simp only [pure, Except.pure, Except.ok.injEq] at hvb
  subst hvb
  simp only [packByte, pure, Except.pure, Except.ok.injEq] at hqb
  subst hqb
  have e : (le16 a.toNat ++ le16 b.toNat ++ le16 c.toNat ++ le16 d.toNat) ++
        [if q then 1 else 0] ++ db
      = (le16 a.toNat ++ le16 b.toNat ++ le16 c.toNat ++ le16 d.toNat) ++
        ([if q then 1 else 0] ++ db) := by
    simp
  rw [e, ModSettings.load]
  have h8 : readExact 8 ((le16 a.toNat ++ le16 b.toNat ++ le16 c.toNat ++ le16 d.toNat) ++
        ([if q then 1 else 0] ++ db)) =
      .ok (le16 a.toNat ++ le16 b.toNat ++ le16 c.toNat ++ le16 d.toNat,
           [if q then 1 else 0] ++ db) :=
    readExact_append 8 _ _ (by simp [le16])
  have h1 : readExact 1 ([if q then 1 else 0] ++ db) = .ok ([if q then 1 else 0], db) :=
    readExact_append 1 _ _ rfl
  have hA : a.toNat < 2 ^ 16 := by omega
  have hB : b.toNat < 2 ^ 16 := by omega
  have hC : c.toNat < 2 ^ 16 := by omega
  have hD : d.toNat < 2 ^ 16 := by omega
  have hu0 : u16 (le16 a.toNat ++ le16 b.toNat ++ le16 c.toNat ++ le16 d.toNat) 0 = a.toNat := by
    simp [u16, le16]
    omega
  have hu1 : u16 (le16 a.toNat ++ le16 b.toNat ++ le16 c.toNat ++ le16 d.toNat) 1 = b.toNat := by
    simp [u16, le16]
    omega
  have hu2 : u16 (le16 a.toNat ++ le16 b.toNat ++ le16 c.toNat ++ le16 d.toNat) 2 = c.toNat := by
    simp [u16, le16]
    omega
  have hu3 : u16 (le16 a.toNat ++ le16 b.toNat ++ le16 c.toNat ++ le16 d.toNat) 3 = d.toNat := by
    simp [u16, le16]
    omega
  have hload : PropertyTree.load db = .ok (data, []) := by
    have h := propertyTree_load_save data db [] hwfd hdb
    obtain ⟨v, ty, anyType, hdata⟩ := hshape
    subst hdata
    simpa [PyVal.setKey] using h
  simp only [h8, h1, hu0, hu1, hu2, hu3, hload, Except.bind, Bind.bind, List.headI, hver]
  simp [Int.toNat_of_nonneg, ha0, hb0, hc0, hd0, anyByteNot]

/-- Claim C1 amended: byte round-trip for canonical documents.  A canonical
document is one actually writable by the encoder from a well-formed value —
equivalently, a grammar-conformant document whose boolean-carrying bytes
(string null flags, Bool payloads, `any_type`, `has_quality`) are `0` or
`1` and whose string lengths use the single-byte form exactly below `0xff`.
For those, decode succeeds consuming every byte and re-encode reproduces
the document byte for byte.  (For merely grammar-conformant documents the
claim fails: see `modSettings_grammar_roundtrip_counterexample`.) -/
theorem modSettings_roundtrip_canonical (D : List Nat)
    (h : ∃ V, wfMS V ∧ ModSettings.save V = .ok D) :
    ∃ m, ModSettings.load D = .ok (m, []) ∧ ModSettings.save m = .ok D := by
  obtain ⟨V, hwf, hsave⟩ := h
  exact ⟨V, modSettings_load_after_save V D hwf hsave, hsave⟩

/-- Witness for the amended claim C1 on an eleven-byte canonical document
(version `(0, 18, 0, 0)`, no quality flag, Null root). -/
theorem modSettings_roundtrip_canonical_witness :
    ∃ m, ModSettings.load [0, 0, 18, 0, 0, 0, 0, 0, 0, 0, 0] = .ok (m, []) ∧
      ModSettings.save m = .ok [0, 0, 18, 0, 0, 0, 0, 0, 0, 0, 0] := by
  apply modSettings_roundtrip_canonical
  refine ⟨.msettings (.ptree none .pynone .null false)
      [.pyint 0, .pyint 18, .pyint 0, .pyint 0] (.pybool false), ?_, ?_⟩
  · exact ⟨.ptree none .pynone .null false, 0, 18, 0, 0, false, rfl,
      by decide, by decide, by decide, by decide, by decide, by decide, by decide, by decide,
      by decide, ⟨.pynone, .null, false, rfl⟩, by simp [wfTree]⟩
  · simp [ModSettings.save, packVersion, packByte, PropertyTree.save, le16, PTType.tag,
          Except.bind, Bind.bind, Pure.pure, Except.pure]

/-- Exponent field of a binary64 representation (8 little-endian bytes). -/
def floatExpo (bits : List Nat) : Nat := leDec bits / 2 ^ 52 % 2 ^ 11

/-- Fraction field of a binary64 representation. -/
def floatFrac (bits : List Nat) : Nat := leDec bits % 2 ^ 52

/-- Sign bit of a binary64 representation. -/
def floatSign (bits : List Nat) : Nat := leDec bits / 2 ^ 63 % 2

/-- The representation denotes a NaN. -/
def isNanBits (bits : List Nat) : Bool :=
  decide (floatExpo bits = 2047) && decide (floatFrac bits ≠ 0)

/-- Python `float == float` on two binary64 representations: NaN compares
unequal to everything (including itself), positive and negative zero
compare equal, and otherwise distinct representations denote distinct
values, so equality is representation equality. -/
def floatEqBits (x y : List Nat) : Bool :=
  if isNanBits x || isNanBits y then false
  else if floatExpo x = 0 && floatFrac x = 0 && floatExpo y = 0 && floatFrac y = 0 then true
  else decide (x = y)

/-- Python `int == float` (and `bool == float`), exactly: the float value is
`(-1) ^ sign * m * 2 ^ (e - 1075)` with `m` and `e` read from the
representation, and the comparison is carried out over integers scaled by
`2 ^ 1075`; NaN and the infinities equal no integer. -/
def intEqFloat (n : Int) (bits : List Nat) : Bool :=
  if floatExpo bits = 2047 then false
  else
    let m : Nat := if floatExpo bits = 0 then floatFrac bits else 2 ^ 52 + floatFrac bits
    let ee : Nat := max (floatExpo bits) 1
    let mag : Int := (m : Int) * 2 ^ ee
    decide (n * 2 ^ 1075 = if floatSign bits = 0 then mag else -mag)

/-- Python dict lookup `obj[k]` as an option (first matching key; dicts
built by this program have unique keys). -/
def dictLookup (k : List Nat) : List (List Nat × PyVal) → Option PyVal
  | [] => none
  | (k2, v) :: rest => if k2 = k then some v else dictLookup k rest

/-- A value found in an association list is smaller than the list. -/
theorem sizeOf_dictLookup {k : List Nat} {kvs : List (List Nat × PyVal)} {w : PyVal}
    (h : dictLookup k kvs = some w) : sizeOf w < sizeOf kvs := by
  induction kvs with
  | nil => simp [dictLookup] at h
  | cons p rest ih =>
    obtain ⟨k2, v⟩ := p
    simp only [dictLookup] at h
    by_cases hk : k2 = k
    · rw [if_pos hk] at h
      injection h with h
      subst h
      simp
      omega
    · rw [if_neg hk] at h
      have := ih h
      simp
      omega

/-- The `value` field of an `ImmutableString`, as the Python object it
holds (`None` or a `bytes`), for the duck-typed comparison below. -/
def optBytes : Option (List Nat) → PyVal
  | none => .pynone
  | some bs => .pybytes bs

/-- Every value has positive size (used for termination of `pyEq`). -/
theorem PyVal.one_le_sizeOf (v : PyVal) : 1 ≤ sizeOf v := by
  cases v <;> simp <;> omega

mutual

/-- Python `==` on the values this program handles.

Dispatch follows Python's protocol: a builtin left operand answers `False`
for a different builtin type (numbers cross-compare by value, `bool` being
an `int`); when either operand is one of the three codec classes, their
hand-written `__eq__` runs and blindly reads `value`/`key`/`data` off the
other operand, raising `AttributeError` when the attribute is missing —
`ImmutableString.__eq__` against a `PropertyTree` finds a `value` attribute
and recurses into it.  List equality checks lengths first, then compares
elementwise, propagating any exception; dict equality is key-wise.
`ModSettings.__eq__` compares the version tuples, which behave elementwise
exactly like list comparison, so the tuple is compared through its element
list. -/
def pyEq : PyVal → PyVal → Except PyErr Bool
  | .pynone, .pynone => pure true
  | .pybool x, .pybool y => pure (x == y)
  | .pybool x, .pyint m => pure (decide ((if x then (1 : Int) else 0) = m))
  | .pybool x, .pyfloat fb => pure (intEqFloat (if x then 1 else 0) fb)
  | .pyint n, .pybool y => pure (decide (n = if y then 1 else 0))
  | .pyint n, .pyint m => pure (decide (n = m))
  | .pyint n, .pyfloat fb => pure (intEqFloat n fb)
  | .pyfloat fb, .pybool y => pure (intEqFloat (if y then 1 else 0) fb)
  | .pyfloat fb, .pyint m => pure (intEqFloat m fb)
  | .pyfloat fa, .pyfloat fb => pure (floatEqBits fa fb)
  | .pystr s1, .pystr s2 => pure (decide (s1 = s2))
  | .pybytes b1, .pybytes b2 => pure (decide (b1 = b2))
  | .pylist xs, .pylist ys =>
      if xs.length = ys.length then
        match xs, ys with
        | [], _ => pure true
        | x :: xs2, y :: ys2 => do
            let e ← pyEq x y
            if e then pyEq (.pylist xs2) (.pylist ys2) else pure false
        | _, _ => pure false
      else pure false
  | .pydict k1, .pydict k2 =>
      if k1.length = k2.length then pyEqPairs k1 k2 else pure false
  | .istr v1, .istr v2 => pure (decide (v1 = v2))
  | .istr v1, .ptree _ pv _ _ => pyEq (optBytes v1) pv
  | .istr _, _ => .error .attributeError
  | .ptree k1 v1 ty1 at1, .ptree k2 v2 ty2 at2 =>
      if k1 = k2 then do
        let e ← pyEq v1 v2
        if e then pure (decide (ty1 = ty2) && (at1 == at2)) else pure false
      else pure false
  | .ptree _ _ _ _, _ => .error .attributeError
  | .msettings d1 ver1 q1, .msettings d2 ver2 q2 => do
      let e ← pyEq d1 d2
      if e then do
        let ve ← pyEq (.pylist ver1) (.pylist ver2)
        if ve then pyEq q1 q2 else pure false
      else pure false
  | .msettings _ _ _, _ => .error .attributeError
  | _, .istr _ => .error .attributeError
  | _, .ptree _ _ _ _ => .error .attributeError
  | _, .msettings _ _ _ => .error .attributeError
  | _, _ => pure false
termination_by a b => sizeOf a + sizeOf b
decreasing_by
  all_goals simp_wf
  all_goals try omega
  all_goals try (cases v1 <;> simp [optBytes] <;> omega)
  all_goals try (have hdl9 := sizeOf_dictLookup h; omega)
  all_goals try (have hs1 := PyVal.one_le_sizeOf d1; have hs2 := PyVal.one_le_sizeOf d2; omega)

/-- Python dict equality walk: every key of the left dict must be present
in the right one with an equal value (lengths already compared). -/
def pyEqPairs : List (List Nat × PyVal) → List (List Nat × PyVal) → Except PyErr Bool
  | [], _ => pure true
  | (k, v) :: rest, other =>
      match h : dictLookup k other with
      | none => pure false
      | some w => do
          let e ← pyEq v w
          if e then pyEqPairs rest other else pure false
termination_by l other => sizeOf l + sizeOf other
decreasing_by
  all_goals simp_wf
  all_goals try (have hdl9 := sizeOf_dictLookup h; omega)
  all_goals try omega

end

mutual

/-- Values on which Python `==` with an identically-built copy returns
`True`: everything this codec builds except NaN numbers (`nan != nan`);
dicts are excluded (never compared by the codec). -/
def selfEqOk : PyVal → Bool
  | .pynone => true
  | .pybool _ => true
  | .pyint _ => true
  | .pyfloat bits => !isNanBits bits
  | .pystr _ => true
  | .pybytes _ => true
  | .pylist xs => selfEqOkList xs
  | .pydict _ => false
  | .istr _ => true
  | .ptree _ v _ _ => selfEqOk v
  | .msettings d ver q => selfEqOk d && selfEqOkList ver && selfEqOk q

/-- `selfEqOk` over the elements of a list. -/
def selfEqOkList : List PyVal → Bool
  | [] => true
  | x :: xs => selfEqOk x && selfEqOkList xs

end

/-- A non-NaN binary64 representation equals itself under Python `==`. -/
theorem floatEqBits_refl (bits : List Nat) (h : isNanBits bits = false) :
    floatEqBits bits bits = true := by
  rw [floatEqBits, h]
  simp only [Bool.or_self, Bool.false_eq_true, if_false]
  split <;> simp

/-- Python `==` is reflexive on the values `selfEqOk` admits. -/
theorem pyEq_refl_aux (n : Nat) :
    (∀ t, sizeOf t ≤ n → selfEqOk t = true → pyEq t t = .ok true) ∧
    (∀ xs : List PyVal, sizeOf xs ≤ n → selfEqOkList xs = true →
      pyEq (.pylist xs) (.pylist xs) = .ok true) := by
  induction n using Nat.strong_induction_on with
  | _ n ih =>
    have hlist : ∀ xs : List PyVal, sizeOf xs ≤ n → selfEqOkList xs = true →
        pyEq (.pylist xs) (.pylist xs) = .ok true := by
      intro xs hsz hok
      cases xs with
      | nil => simp [pyEq, pure, Except.pure]
      | cons x xs2 =>
        simp only [selfEqOkList, Bool.and_eq_true] at hok
        have hx : sizeOf x < n := by
          have : sizeOf x < sizeOf (x :: xs2) := by
            simp
            try omega
          omega
        have hxs : sizeOf xs2 < n := by
          have : sizeOf xs2 < sizeOf (x :: xs2) := by
            simp
            try omega
          omega
        have h1 := (ih (sizeOf x) hx).1 x le_rfl hok.1
        have h2 := (ih (sizeOf xs2) hxs).2 xs2 le_rfl hok.2
        simp [pyEq, h1, h2, Except.bind, Bind.bind, pure, Except.pure]
    refine ⟨?_, hlist⟩
    intro t hsz hok
    cases t with
    | pynone => simp [pyEq, pure, Except.pure]
    | pybool b => simp [pyEq, pure, Except.pure]
    | pyint m => simp [pyEq, pure, Except.pure]
    | pyfloat bits =>
        simp only [selfEqOk, Bool.not_eq_true'] at hok
        simp [pyEq, floatEqBits_refl bits hok, pure, Except.pure]
    | pystr s => simp [pyEq, pure, Except.pure]
    | pybytes bs => simp [pyEq, pure, Except.pure]
    | pylist xs =>
        simp only [selfEqOk] at hok
        apply hlist xs _ hok
        have : sizeOf xs < sizeOf (PyVal.pylist xs) := by
          simp
          try omega
        omega
    | pydict kvs => simp [selfEqOk] at hok
    | istr v => simp [pyEq, pure, Except.pure]
    | ptree k v ty anyType =>
        simp only [selfEqOk] at hok
        have hv : sizeOf v < n := by
          have : sizeOf v < sizeOf (PyVal.ptree k v ty anyType) := by
            simp
            try omega
          omega
        have h1 := (ih (sizeOf v) hv).1 v le_rfl hok
        simp [pyEq, h1, Except.bind, Bind.bind, pure, Except.pure]
    | msettings d ver q =>
        simp only [selfEqOk, Bool.and_eq_true] at hok
        obtain ⟨⟨hd, hver⟩, hq⟩ := hok
        have hdn : sizeOf d < n := by
          have : sizeOf d < sizeOf (PyVal.msettings d ver q) := by
            simp
            try omega
          omega
        have hvn : sizeOf ver < n := by
          have : sizeOf ver < sizeOf (PyVal.msettings d ver q) := by
            simp
            try omega
          omega
        have hqn : sizeOf q < n := by
          have : sizeOf q < sizeOf (PyVal.msettings d ver q) := by
            simp
            try omega
          omega
        have h1 := (ih (sizeOf d) hdn).1 d le_rfl hd
        have h2 := (ih (sizeOf ver) hvn).2 ver le_rfl hver
        have h3 := (ih (sizeOf q) hqn).1 q le_rfl hq
        simp [pyEq, h1, h2, h3, Except.bind, Bind.bind, pure, Except.pure]

/-- Python `==` is reflexive on the values `selfEqOk` admits. -/
theorem pyEq_refl (t : PyVal) (h : selfEqOk t = true) : pyEq t t = .ok true :=
  (pyEq_refl_aux (sizeOf t)).1 t le_rfl h

/-- On well-formed values the `ModSettings` saver always succeeds. -/
theorem modSettings_save_ok (V : PyVal) (hwf : wfMS V) :
    ∃ bs, ModSettings.save V = .ok bs := by
  obtain ⟨data, a, b, c, d, q, rfl, ha0, ha, hb0, hb, hc0, hc, hd0, hd, hver, hshape, hwfd⟩ := hwf
  obtain ⟨db, hdb⟩ := propertyTree_save_ok data hwfd
  refine ⟨(le16 a.toNat ++ le16 b.toNat ++ le16 c.toNat ++ le16 d.toNat) ++
    [if q then 1 else 0] ++ db, ?_⟩
  simp only [ModSettings.save, packVersion, packByte]
  rw [if_pos ⟨ha0, ha, hb0, hb, hc0, hc, hd0, hd⟩]
  simp [hdb, Except.bind, Bind.bind, pure, Except.pure]

/-- Claim C9 as stated is violated by the code: the well-formed value below
(version `(0, 18, 0, 0)`, data a Number node whose payload is the quiet
NaN `0x7ff8000000000000` — a 64-bit float) saves to bytes that load back to
the bit-identical value, yet the defined structural equality
(`ModSettings.__eq__`, which compares Number payloads with Python float
`==`) rejects it: `nan != nan`, so `load(save(V)) == V` is `False`. -/
theorem modSettings_value_roundtrip_nan_counterexample :
    ModSettings.save (.msettings (.ptree none (.pyfloat [0, 0, 0, 0, 0, 0, 248, 127])
          .number false) [.pyint 0, .pyint 18, .pyint 0, .pyint 0] (.pybool false)) =
      .ok [0, 0, 18, 0, 0, 0, 0, 0, 0, 2, 0, 0, 0, 0, 0, 0, 0, 248, 127] ∧
    ModSettings.load [0, 0, 18, 0, 0, 0, 0, 0, 0, 2, 0, 0, 0, 0, 0, 0, 0, 248, 127] =
      .ok (.msettings (.ptree none (.pyfloat [0, 0, 0, 0, 0, 0, 248, 127]) .number false)
        [.pyint 0, .pyint 18, .pyint 0, .pyint 0] (.pybool false), []) ∧
    pyEq (.msettings (.ptree none (.pyfloat [0, 0, 0, 0, 0, 0, 248, 127]) .number false)
        [.pyint 0, .pyint 18, .pyint 0, .pyint 0] (.pybool false))
      (.msettings (.ptree none (.pyfloat [0, 0, 0, 0, 0, 0, 248, 127]) .number false)
        [.pyint 0, .pyint 18, .pyint 0, .pyint 0] (.pybool false)) = .ok false := by
  refine ⟨?_, ?_, ?_⟩
  · simp [ModSettings.save, packVersion, packByte, PropertyTree.save, le16, PTType.tag,
          Except.bind, Bind.bind, Pure.pure, Except.pure]
  · simp [ModSettings.load, PropertyTree.load, PropertyTree.loadF, readExact, PTType.ofTag,
          Except.bind, Except.map, Bind.bind, Functor.map, Pure.pure, Except.pure, u16, tupleLt4]
  · simp [pyEq, floatEqBits, isNanBits, floatExpo, floatFrac, leDec,
          Except.bind, Bind.bind, Pure.pure, Except.pure]

/-- Claim C9 amended: the value-level binary round-trip holds for every
well-formed `ModSettings` value whose Number payloads are not NaN — saving
succeeds, loading the saved bytes returns the bit-identical value consuming
the whole stream, and the defined structural equality then accepts it
(Python float `==` is reflexive away from NaN, and `any_type` flags and
child keys are preserved exactly, the loaded value being identical). -/
theorem modSettings_value_roundtrip (V : PyVal) (hwf : wfMS V)
    (hself : selfEqOk V = true) :
    ∃ bs, ModSettings.save V = .ok bs ∧ ModSettings.load bs = .ok (V, []) ∧
      pyEq V V = .ok true := by
  obtain ⟨bs, hbs⟩ := modSettings_save_ok V hwf
  exact ⟨bs, hbs, modSettings_load_after_save V bs hwf hbs, pyEq_refl V hself⟩

/-- Witness for the amended claim C9 on a small well-formed value with a
dictionary root holding one keyed Bool child with `any_type` set. -/
theorem modSettings_value_roundtrip_witness :
    ∃ bs, ModSettings.save (.msettings
        (.ptree none (.pylist [.ptree (some [102, 111, 111]) (.pybool true) .bool true])
          .dictionary false)
        [.pyint 1, .pyint 1, .pyint 110, .pyint 0] (.pybool true)) = .ok bs ∧
      ModSettings.load bs = .ok ((.msettings
        (.ptree none (.pylist [.ptree (some [102, 111, 111]) (.pybool true) .bool true])
          .dictionary false)
        [.pyint 1, .pyint 1, .pyint 110, .pyint 0] (.pybool true)), []) ∧
      pyEq (.msettings
        (.ptree none (.pylist [.ptree (some [102, 111, 111]) (.pybool true) .bool true])
          .dictionary false)
        [.pyint 1, .pyint 1, .pyint 110, .pyint 0] (.pybool true))
        (.msettings
        (.ptree none (.pylist [.ptree (some [102, 111, 111]) (.pybool true) .bool true])
          .dictionary false)
        [.pyint 1, .pyint 1, .pyint 110, .pyint 0] (.pybool true)) = .ok true := by
  apply modSettings_value_roundtrip
  · exact ⟨.ptree none (.pylist [.ptree (some [102, 111, 111]) (.pybool true) .bool true])
        .dictionary false, 1, 1, 110, 0, true, rfl,
      by decide, by decide, by decide, by decide, by decide, by decide, by decide, by decide,
      by decide,
      ⟨.pylist [.ptree (some [102, 111, 111]) (.pybool true) .bool true], .dictionary, false, rfl⟩,
      by simp [wfTree, wfChildren, keyLenOk, lenOk]⟩
  · simp [selfEqOk, selfEqOkList]

/-- A UTF-8 continuation byte. -/
def utf8Cont (c : Nat) : Bool := 0x80 ≤ c && c ≤ 0xBF

/-- Strict UTF-8 validity, as checked by Python `bytes.decode()` (and
satisfied by every `str.encode()` output): standard sequence ranges, with
overlong forms and surrogates rejected. -/
def validUtf8 : List Nat → Bool
  | [] => true
  | b :: rest =>
    if b < 0x80 then validUtf8 rest
    else if 0xC2 ≤ b ∧ b ≤ 0xDF then
      match rest with
      | c1 :: r => utf8Cont c1 && validUtf8 r
      | [] => false
    else if b = 0xE0 then
      match rest with
      | c1 :: c2 :: r => (0xA0 ≤ c1 && c1 ≤ 0xBF) && utf8Cont c2 && validUtf8 r
      | _ => false
    else if (0xE1 ≤ b ∧ b ≤ 0xEC) ∨ b = 0xEE ∨ b = 0xEF then
      match rest with
      | c1 :: c2 :: r => utf8Cont c1 && utf8Cont c2 && validUtf8 r
      | _ => false
    else if b = 0xED then
      match rest with
      | c1 :: c2 :: r => (0x80 ≤ c1 && c1 ≤ 0x9F) && utf8Cont c2 && validUtf8 r
      | _ => false
    else if b = 0xF0 then
      match rest with
      | c1 :: c2 :: c3 :: r =>
          (0x90 ≤ c1 && c1 ≤ 0xBF) && utf8Cont c2 && utf8Cont c3 && validUtf8 r
      | _ => false
    else if 0xF1 ≤ b ∧ b ≤ 0xF3 then
      match rest with
      | c1 :: c2 :: c3 :: r => utf8Cont c1 && utf8Cont c2 && utf8Cont c3 && validUtf8 r
      | _ => false
    else if b = 0xF4 then
      match rest with
      | c1 :: c2 :: c3 :: r =>
          (0x80 ≤ c1 && c1 ≤ 0x8F) && utf8Cont c2 && utf8Cont c3 && validUtf8 r
      | _ => false
    else false

/-- Parsed JSON values (the host textual notation).  Integer literals parse
to Python `int` (`json` default `parse_int`), all other numeric literals
and the `NaN`/`Infinity` constants to `float` (held as its binary64
representation).  Python's text serialization is exact in both directions —
`repr` of a float reparses to the same float, strings escape losslessly —
so `json.dumps` followed by `json.loads` is modelled as the identity
between this AST and itself, and the text itself is not represented. -/
inductive JValue where
  | null
  | bool (b : Bool)
  | int (n : Int)
  | float (bits : List Nat)
  | str (s : List Nat)
  | arr (xs : List JValue)
  | obj (kvs : List (List Nat × JValue))
deriving Repr

/-- The UTF-8 bytes of the string literal `"!type"`. -/
def keyBangType : List Nat := [33, 116, 121, 112, 101]

/-- The UTF-8 bytes of the string literal `"ModSettings"`. -/
def strModSettings : List Nat := [77, 111, 100, 83, 101, 116, 116, 105, 110, 103, 115]

/-- The UTF-8 bytes of the string literal `"version"`. -/
def keyVersion : List Nat := [118, 101, 114, 115, 105, 111, 110]

/-- The UTF-8 bytes of the string literal `"has_quality"`. -/
def keyHasQuality : List Nat := [104, 97, 115, 95, 113, 117, 97, 108, 105, 116, 121]

/-- The UTF-8 bytes of the string literal `"data"`. -/
def keyData : List Nat := [100, 97, 116, 97]

/-- Python dict assignment `d[k] = v`: an existing key keeps its position
and takes the new value, a new key appends. -/
def insertPair {α : Type} : List (List Nat × α) → List Nat → α → List (List Nat × α)
  | [], k, v => [(k, v)]
  | (k2, w) :: rest, k, v =>
      if k2 = k then (k2, v) :: rest else (k2, w) :: insertPair rest k v

/-- Building a Python dict from key/value pairs in order (JSON objects with
duplicate keys: the later value wins, the first position is kept). -/
def buildDict {α : Type} (pairs : List (List Nat × α)) : List (List Nat × α) :=
  pairs.foldl (fun acc p => insertPair acc p.1 p.2) []

mutual

/-- Python method `JSONDecoder.object_hook(obj)`, the textual-to-tree
conversion: `None`/`bool`/`float`/`str` become the corresponding keyless
nodes (`any_type` defaults to false); a `list` becomes a List node holding
the parsed elements as they are — the code does not convert or key them; a
`dict` carrying the `"!type"` discriminator is interpreted as a
`ModSettings` envelope (a missing `data`/`version`/`has_quality` field is a
`KeyError`, an unrecognized discriminator value raises, and comparing a
non-string discriminator against `"ModSettings"` follows Python `==`); any
other `dict` becomes a Dictionary node whose values are converted by a
recursive hook call and re-keyed; a `PropertyTree` passes through; every
other type — notably `int` — raises `NotImplementedError`.
`(*obj["version"],)` is modelled for list values; a `str` or `dict` there
would also be unpacked by Python (as characters or keys), which no value
this program produces can reach and which is mapped to `TypeError` here. -/
def JSONDecoder.object_hook : PyVal → Except PyErr PyVal
  | .pynone => pure (.ptree none .pynone .null false)
  | .pybool b => pure (.ptree none (.pybool b) .bool false)
  | .pyfloat bits => pure (.ptree none (.pyfloat bits) .number false)
  | .pystr s => pure (.ptree none (.istr (some s)) .string false)
  | .pylist xs => pure (.ptree none (.pylist xs) .list false)
  | .pydict kvs =>
      match dictLookup keyBangType kvs with
      | some tv => do
          let e ← pyEq tv (.pystr strModSettings)
          if e then
            match dictLookup keyData kvs with
            | none => .error .keyError
            | some dv =>
              match dictLookup keyVersion kvs with
              | none => .error .keyError
              | some vv =>
                match vv with
                | .pylist ver =>
                  match dictLookup keyHasQuality kvs with
                  | none => .error .keyError
                  | some qv => pure (.msettings dv ver qv)
                | _ => .error .typeError
          else .error .unknownObjectType
      | none => do
          let items ← JSONDecoder.hookItems kvs
          pure (.ptree none (.pylist items) .dictionary false)
  | .ptree k v ty a => pure (.ptree k v ty a)
  | _ => .error .notImplementedError

/-- The `for key, value in obj.items()` loop of `object_hook`: each value
is converted by a recursive hook call, then its key is overwritten with
`ImmutableString(key.encode())` (`str.encode` is the identity in this
embedding; a parsed JSON string with lone surrogates, where Python
`encode` would raise, is not representable here and is not produced by the
encoder). -/
def JSONDecoder.hookItems : List (List Nat × PyVal) → Except PyErr (List PyVal)
  | [] => pure []
  | (k, v) :: rest => do
      let item ← JSONDecoder.object_hook v
      let items ← JSONDecoder.hookItems rest
      pure (item.setKey (some k) :: items)

end

mutual

/-- Python `json.loads(text, cls=JSONDecoder)` as a function of the parsed
document: the parser materializes values bottom-up and applies
`object_hook` to every object — and only to objects, so a top-level scalar
or array comes back unconverted, while objects nested anywhere (including
inside `data`) are hooked where they complete. -/
def JSONDecoder.loads : JValue → Except PyErr PyVal
  | .null => pure .pynone
  | .bool b => pure (.pybool b)
  | .int n => pure (.pyint n)
  | .float bits => pure (.pyfloat bits)
  | .str s => pure (.pystr s)
  | .arr xs => do pure (.pylist (← JSONDecoder.loadsList xs))
  | .obj kvs => do
      let pairs ← JSONDecoder.loadsPairs kvs
      JSONDecoder.object_hook (.pydict (buildDict pairs))

/-- Parsed array elements, in order. -/
def JSONDecoder.loadsList : List JValue → Except PyErr (List PyVal)
  | [] => pure []
  | x :: xs => do pure ((← JSONDecoder.loads x) :: (← JSONDecoder.loadsList xs))

/-- Parsed object members, in document order, values converted. -/
def JSONDecoder.loadsPairs : List (List Nat × JValue) → Except PyErr (List (List Nat × PyVal))
  | [] => pure []
  | (k, v) :: rest => do
      pure ((k, ← JSONDecoder.loads v) :: (← JSONDecoder.loadsPairs rest))

end

mutual

/-- Python `json.dumps(obj, cls=JSONEncoder)` as a function producing the
parsed form of the emitted text: builtins serialize natively (`bytes` is
not serializable — `TypeError`), and the three codec classes go through
`JSONEncoder.default`: a null `ImmutableString` becomes textual null, a
present one decodes as UTF-8 (`UnicodeDecodeError` on invalid bytes); a
`PropertyTree` serializes by type — Null to null, Bool/Number/String
through the payload itself, List as the sequence of raw child values,
Dictionary as an object keyed by each child's UTF-8-decoded key (the
`any_type` flag and the node's own key are not written anywhere); a
`ModSettings` becomes the discriminator envelope object.  In the
Dictionary comprehension, Python first builds the dict (each `item.key`
read and decoded in order, later duplicate keys overwriting earlier ones)
and then serializes the surviving values; this model serializes each
item's value where the item is visited, which differs only in which error
wins for a dictionary containing several faulty entries. -/
def JSONEncoder.dumps : PyVal → Except PyErr JValue
  | .pynone => pure .null
  | .pybool b => pure (.bool b)
  | .pyint n => pure (.int n)
  | .pyfloat bits => pure (.float bits)
  | .pystr s => pure (.str s)
  | .pybytes _ => .error .typeError
  | .pylist xs => do pure (.arr (← JSONEncoder.dumpsList xs))
  | .pydict kvs => do pure (.obj (← JSONEncoder.dumpsPairs kvs))
  | .istr none => pure .null
  | .istr (some bs) => if validUtf8 bs then pure (.str bs) else .error .unicodeError
  | .ptree _ v ty _ =>
    match ty, v with
    | .null, _ => pure .null
    | .bool, w => JSONEncoder.dumps w
    | .number, w => JSONEncoder.dumps w
    | .string, w => JSONEncoder.dumps w
    | .list, .pylist xs => do pure (.arr (← JSONEncoder.dumpsList xs))
    | .list, _ => .error .typeError
    | .dictionary, .pylist xs => do
        pure (.obj (buildDict (← JSONEncoder.dumpsDictItems xs)))
    | .dictionary, _ => .error .typeError
  | .msettings data version hq => do
      let vj ← JSONEncoder.dumpsList version
      let hj ← JSONEncoder.dumps hq
      let dj ← JSONEncoder.dumps data
      pure (.obj [(keyBangType, .str strModSettings), (keyVersion, .arr vj),
                  (keyHasQuality, hj), (keyData, dj)])
termination_by v => sizeOf v
decreasing_by
  all_goals simp_wf
  all_goals try omega

/-- Serialized list elements (also the `version` tuple), in order. -/
def JSONEncoder.dumpsList : List PyVal → Except PyErr (List JValue)
  | [] => pure []
  | x :: xs => do pure ((← JSONEncoder.dumps x) :: (← JSONEncoder.dumpsList xs))
termination_by xs => sizeOf xs
decreasing_by
  all_goals simp_wf
  all_goals try omega

/-- Serialized dict members, in order, keys kept. -/
def JSONEncoder.dumpsPairs : List (List Nat × PyVal) → Except PyErr (List (List Nat × JValue))
  | [] => pure []
  | (k, v) :: rest => do
      pure ((k, ← JSONEncoder.dumps v) :: (← JSONEncoder.dumpsPairs rest))
termination_by kvs => sizeOf kvs
decreasing_by
  all_goals simp_wf
  all_goals try omega

/-- The Dictionary comprehension
`{item.key.value.decode(): item for item in obj.value}`: each item must be
a `PropertyTree` (`item.key` else raises) with a present key
(`None.decode()` raises) holding valid UTF-8. -/
def JSONEncoder.dumpsDictItems : List PyVal → Except PyErr (List (List Nat × JValue))
  | [] => pure []
  | x :: xs =>
    match x with
    | .ptree (some kb) pv pty pat =>
        if validUtf8 kb then do
          let jv ← JSONEncoder.dumps (.ptree (some kb) pv pty pat)
          pure ((kb, jv) :: (← JSONEncoder.dumpsDictItems xs))
        else .error .unicodeError
    | .ptree none _ _ _ => .error .attributeError
    | _ => .error .attributeError
termination_by xs => sizeOf xs
decreasing_by
  all_goals simp_wf
  all_goals try omega

end

/-- The composite textual round trip: encode to text, parse it back.  The
text layer itself is exact (see `JValue`), so this is the decoder applied
to the encoder's AST. -/
def textualRoundTrip (V : PyVal) : Except PyErr PyVal := do
  JSONDecoder.loads (← JSONEncoder.dumps V)

/-- Claim C5 is violated by the code on two variants: an integer literal is
not converted to a Number node but raises `NotImplementedError` (an `int`
is not a `float` and matches no `isinstance` branch), and an array becomes
a List node whose children are the parsed elements exactly as they are —
the scalar element here stays a raw Python `True`, is not recursively
converted to a Bool node, and receives no key.  The third conjunct shows
the same through a whole document, the textual form of `{"a": [true]}`:
the List child of the decoded Dictionary holds the raw boolean. -/
theorem object_hook_int_and_array_divergence :
    JSONDecoder.object_hook (.pyint 1) = .error .notImplementedError ∧
    JSONDecoder.object_hook (.pylist [.pybool true]) =
      .ok (.ptree none (.pylist [.pybool true]) .list false) ∧
    JSONDecoder.loads (.obj [([97], .arr [.bool true])]) =
      .ok (.ptree none
        (.pylist [.ptree (some [97]) (.pylist [.pybool true]) .list false])
        .dictionary false) := by
  refine ⟨?_, ?_, ?_⟩
  · simp [JSONDecoder.object_hook]
  · simp [JSONDecoder.object_hook, pure, Except.pure]
  · simp [JSONDecoder.loads, JSONDecoder.loadsList, JSONDecoder.loadsPairs,
          buildDict, insertPair, List.foldl, JSONDecoder.object_hook, JSONDecoder.hookItems,
          dictLookup, keyBangType, PyVal.setKey,
          Except.bind, Bind.bind, Pure.pure, Except.pure, pure]

/-- The parsed form of the textual document
`{"!type": "ModSettings", "version": [1, 1, 0, 0], "has_quality": false,
"data": {}}` — a complete, well-formed envelope object. -/
def envelopeDoc : JValue :=
  .obj [(keyBangType, .str strModSettings),
        (keyVersion, .arr [.int 1, .int 1, .int 0, .int 0]),
        (keyHasQuality, .bool false), (keyData, .obj [])]

/-- Claim C4 is violated by the code: the parser applies `object_hook` to
every object, so `envelopeDoc` nested under the key `"a"` is converted to
a `ModSettings` record where it completes (first conjunct), and the
enclosing dictionary conversion then fails with `NotImplementedError`
(`ModSettings` matches no branch of the hook) — it never becomes an
ordinary Dictionary entry with a `"!type"`-keyed String child. -/
theorem nested_envelope_counterexample :
    JSONDecoder.loads envelopeDoc =
      .ok (.msettings (.ptree none (.pylist []) .dictionary false)
        [.pyint 1, .pyint 1, .pyint 0, .pyint 0] (.pybool false)) ∧
    JSONDecoder.loads (.obj [([97], envelopeDoc)]) = .error .notImplementedError := by
  have hpairs : JSONDecoder.loadsPairs [(keyBangType, .str strModSettings),
      (keyVersion, .arr [.int 1, .int 1, .int 0, .int 0]),
      (keyHasQuality, .bool false), (keyData, .obj [])] =
    .ok [(keyBangType, .pystr strModSettings),
         (keyVersion, .pylist [.pyint 1, .pyint 1, .pyint 0, .pyint 0]),
         (keyHasQuality, .pybool false),
         (keyData, .ptree none (.pylist []) .dictionary false)] := by
    simp [JSONDecoder.loads, JSONDecoder.loadsList, JSONDecoder.loadsPairs,
          JSONDecoder.object_hook, JSONDecoder.hookItems, buildDict, insertPair, dictLookup,
          Except.bind, Bind.bind, Pure.pure, Except.pure, pure]
  have hbuild : buildDict [(keyBangType, PyVal.pystr strModSettings),
         (keyVersion, .pylist [.pyint 1, .pyint 1, .pyint 0, .pyint 0]),
         (keyHasQuality, .pybool false),
         (keyData, .ptree none (.pylist []) .dictionary false)] =
    [(keyBangType, PyVal.pystr strModSettings),
         (keyVersion, .pylist [.pyint 1, .pyint 1, .pyint 0, .pyint 0]),
         (keyHasQuality, .pybool false),
         (keyData, .ptree none (.pylist []) .dictionary false)] := by
    simp [buildDict, insertPair, List.foldl, keyBangType, keyVersion, keyHasQuality, keyData]
  have hhook : JSONDecoder.object_hook (.pydict [(keyBangType, PyVal.pystr strModSettings),
         (keyVersion, .pylist [.pyint 1, .pyint 1, .pyint 0, .pyint 0]),
         (keyHasQuality, .pybool false),
         (keyData, .ptree none (.pylist []) .dictionary false)]) =
    .ok (.msettings (.ptree none (.pylist []) .dictionary false)
      [.pyint 1, .pyint 1, .pyint 0, .pyint 0] (.pybool false)) := by
    simp [JSONDecoder.object_hook, dictLookup, keyBangType, keyVersion, keyHasQuality, keyData,
          strModSettings, pyEq, Except.bind, Bind.bind, Pure.pure, Except.pure, pure]
  have hinner : JSONDecoder.loads envelopeDoc =
      .ok (.msettings (.ptree none (.pylist []) .dictionary false)
        [.pyint 1, .pyint 1, .pyint 0, .pyint 0] (.pybool false)) := by
    rw [envelopeDoc, JSONDecoder.loads]
    simp [hpairs, hbuild, hhook, Except.bind, Bind.bind]
  refine ⟨hinner, ?_⟩
  rw [JSONDecoder.loads]
  have houter : JSONDecoder.loadsPairs [([97], envelopeDoc)] =
      .ok [([97], .msettings (.ptree none (.pylist []) .dictionary false)
        [.pyint 1, .pyint 1, .pyint 0, .pyint 0] (.pybool false))] := by
    simp [JSONDecoder.loadsPairs, hinner, Except.bind, Bind.bind, Pure.pure, Except.pure, pure]
  simp [houter, buildDict, insertPair, List.foldl, JSONDecoder.object_hook,
        JSONDecoder.hookItems, dictLookup, keyBangType,
        Except.bind, Bind.bind, Pure.pure, Except.pure, pure]

/-- Claim C4 amended: envelope recognition is not limited to the document
root — the hook runs on every object, bottom-up.  Whenever any
(sub)document decodes to a `ModSettings` record (in particular a nested
tagged envelope), an object enclosing it under an ordinary key fails with
`NotImplementedError` when its own hook tries to convert the record into a
Dictionary entry; the nested tagged object is never turned into an
ordinary entry with a `"!type"`-keyed String child. -/
theorem nested_envelope_recognition (k : List Nat) (j : JValue)
    (d : PyVal) (ver : List PyVal) (q : PyVal)
    (hk : k ≠ keyBangType)
    (hj : JSONDecoder.loads j = .ok (.msettings d ver q)) :
    JSONDecoder.loads (.obj [(k, j)]) = .error .notImplementedError := by
  rw [JSONDecoder.loads]
  have hpairs : JSONDecoder.loadsPairs [(k, j)] = .ok [(k, .msettings d ver q)] := by
    simp [JSONDecoder.loadsPairs, hj, Except.bind, Bind.bind, Pure.pure, Except.pure, pure]
  simp [hpairs, buildDict, insertPair, List.foldl, JSONDecoder.object_hook,
        JSONDecoder.hookItems, dictLookup, hk,
        Except.bind, Bind.bind, Pure.pure, Except.pure, pure]

/-- Witness for the amended claim C4: the concrete nested envelope under
key `"a"`. -/
theorem nested_envelope_recognition_witness :
    JSONDecoder.loads (.obj [([97], envelopeDoc)]) = .error .notImplementedError := by
  apply nested_envelope_recognition [97] envelopeDoc
    (.ptree none (.pylist []) .dictionary false)
    [.pyint 1, .pyint 1, .pyint 0, .pyint 0] (.pybool false)
  · simp [keyBangType]
  · have hpairs : JSONDecoder.loadsPairs [(keyBangType, .str strModSettings),
        (keyVersion, .arr [.int 1, .int 1, .int 0, .int 0]),
        (keyHasQuality, .bool false), (keyData, .obj [])] =
      .ok [(keyBangType, .pystr strModSettings),
           (keyVersion, .pylist [.pyint 1, .pyint 1, .pyint 0, .pyint 0]),
           (keyHasQuality, .pybool false),
           (keyData, .ptree none (.pylist []) .dictionary false)] := by
      simp [JSONDecoder.loads, JSONDecoder.loadsList, JSONDecoder.loadsPairs,
            JSONDecoder.object_hook, JSONDecoder.hookItems, buildDict, insertPair, dictLookup,
            Except.bind, Bind.bind, Pure.pure, Except.pure, pure]
    rw [envelopeDoc, JSONDecoder.loads]
    simp [hpairs, Except.bind, Bind.bind]
    have hbuild : buildDict [(keyBangType, PyVal.pystr strModSettings),
           (keyVersion, .pylist [.pyint 1, .pyint 1, .pyint 0, .pyint 0]),
           (keyHasQuality, .pybool false),
           (keyData, .ptree none (.pylist []) .dictionary false)] =
      [(keyBangType, PyVal.pystr strModSettings),
           (keyVersion, .pylist [.pyint 1, .pyint 1, .pyint 0, .pyint 0]),
           (keyHasQuality, .pybool false),
           (keyData, .ptree none (.pylist []) .dictionary false)] := by
      simp [buildDict, insertPair, List.foldl, keyBangType, keyVersion, keyHasQuality, keyData]
    rw [hbuild]
    simp [JSONDecoder.object_hook, dictLookup, keyBangType, keyVersion, keyHasQuality, keyData,
          strModSettings, pyEq, Except.bind, Bind.bind, Pure.pure, Except.pure, pure]

/-- The key bytes of a dictionary child (children admitted below always
carry a present key). -/
def childKey : PyVal → List Nat
  | .ptree (some kb) _ _ _ => kb
  | _ => []

/-- A tree node with a present key. -/
def isKeyedChild : PyVal → Bool
  | .ptree (some _) _ _ _ => true
  | _ => false

/-- A Dictionary-typed tree node with an absent key. -/
def isNoneKeyDict : PyVal → Bool
  | .ptree none _ .dictionary _ => true
  | _ => false

/-- A later dictionary child carries the key `kb`. -/
def keyMem (kb : List Nat) : List PyVal → Bool
  | [] => false
  | x :: xs => (isKeyedChild x && decide (childKey x = kb)) || keyMem kb xs

mutual

/-- Trees whose textual encoding decodes back to the identical tree (the
amended claim C2): `any_type` false everywhere (the encoder drops it);
non-NaN Numbers; present, valid-UTF-8 String payloads (a null payload
encodes to textual null and comes back as a Null node); List children all
Dictionary-typed with absent keys (only objects are converted inside
arrays, and list keys are neither written nor restored); Dictionary
children with present, valid-UTF-8, pairwise-distinct keys different from
the `"!type"` discriminator. -/
def twTree : PyVal → Bool
  | .ptree _ v ty anyType => !anyType && twPayload ty v
  | _ => false

/-- The payload discipline of `twTree`, by node type. -/
def twPayload : PTType → PyVal → Bool
  | .null, .pynone => true
  | .bool, .pybool _ => true
  | .number, .pyfloat bits => decide (bits.length = 8) && !isNanBits bits
  | .string, .istr (some bs) => validUtf8 bs
  | .list, .pylist xs => twListChildren xs
  | .dictionary, .pylist xs => twDictChildren xs
  | _, _ => false

/-- Admissible children of a List node. -/
def twListChildren : List PyVal → Bool
  | [] => true
  | x :: xs => isNoneKeyDict x && twTree x && twListChildren xs

/-- Admissible children of a Dictionary node. -/
def twDictChildren : List PyVal → Bool
  | [] => true
  | x :: xs =>
      isKeyedChild x && validUtf8 (childKey x) && !decide (childKey x = keyBangType) &&
      !keyMem (childKey x) xs && twTree x && twDictChildren xs

end

/-- Top-level values of the amended claim C2: a Dictionary-rooted tree with
absent key, or a `ModSettings` envelope around one, with integer version
components and a boolean quality flag. -/
def twTop (V : PyVal) : Prop :=
  (∃ xs, V = .ptree none (.pylist xs) .dictionary false ∧ twTree V = true) ∨
  (∃ data ver q, V = .msettings data ver q ∧
    (∃ xs, data = .ptree none (.pylist xs) .dictionary false) ∧ twTree data = true ∧
    (∀ x ∈ ver, ∃ m : Int, x = .pyint m) ∧ (∃ b, q = .pybool b))

/-- Inserting a fresh key appends. -/
theorem insertPair_notMem {α : Type} (acc : List (List Nat × α)) (k : List Nat) (v : α)
    (h : k ∉ acc.map Prod.fst) : insertPair acc k v = acc ++ [(k, v)] := by
  induction acc with
  | nil => rfl
  | cons p rest ih =>
    obtain ⟨k2, w⟩ := p
    simp only [List.map_cons, List.mem_cons] at h
    rw [insertPair, if_neg (by tauto)]
    rw [ih (by tauto)]
    simp

/-- Folding dict insertion over pairwise-fresh keys concatenates. -/
theorem foldl_insertPair {α : Type} :
    ∀ (pairs acc : List (List Nat × α)),
    (pairs.map Prod.fst).Nodup → (∀ k2 ∈ pairs.map Prod.fst, k2 ∉ acc.map Prod.fst) →
    pairs.foldl (fun a p => insertPair a p.1 p.2) acc = acc ++ pairs := by
  intro pairs
  induction pairs with
  | nil =>
    intro acc _ _
    simp
  | cons p rest ih =>
    intro acc hnd hfresh
    obtain ⟨k, v⟩ := p
    simp only [List.map_cons, List.nodup_cons] at hnd
    simp only [List.foldl_cons]
    rw [insertPair_notMem acc k v (hfresh k (by simp))]
    rw [ih (acc ++ [(k, v)]) hnd.2 ?_]
    · simp
    · intro k2 hk2
      simp only [List.map_append, List.mem_append, List.map_cons, List.map_nil,
                 List.mem_singleton]
      rintro (h1 | h2)
      · exact hfresh k2 (by simp [hk2]) h1
      · exact hnd.1 (h2 ▸ hk2)

/-- With pairwise-distinct keys, the dict built from pairs is the pairs. -/
theorem buildDict_nodup {α : Type} (pairs : List (List Nat × α))
    (h : (pairs.map Prod.fst).Nodup) : buildDict pairs = pairs := by
  have := foldl_insertPair pairs [] h (by simp)
  simpa [buildDict] using this

/-- Lookup misses when the key is absent. -/
theorem dictLookup_eq_none (k : List Nat) (kvs : List (List Nat × PyVal))
    (h : k ∉ kvs.map Prod.fst) : dictLookup k kvs = none := by
  induction kvs with
  | nil => rfl
  | cons p rest ih =>
    obtain ⟨k2, v⟩ := p
    simp only [List.map_cons, List.mem_cons] at h
    rw [dictLookup, if_neg (by tauto)]
    exact ih (by tauto)

/-- Under the dictionary-children discipline, a key reported absent by
`keyMem` is not among the children's keys. -/
theorem keyMem_false_notMem (kb : List Nat) :
    ∀ xs, (∀ x ∈ xs, isKeyedChild x = true) → keyMem kb xs = false →
      kb ∉ xs.map childKey := by
  intro xs
  induction xs with
  | nil =>
    intro _ _
    simp
  | cons x rest ih =>
    intro hkeyed hkm
    rw [keyMem] at hkm
    rw [Bool.or_eq_false_iff] at hkm
    have hx : isKeyedChild x = true := hkeyed x (by simp)
    rw [hx, Bool.true_and, decide_eq_false_iff_not] at hkm
    simp only [List.map_cons, List.mem_cons]
    rintro (h1 | h2)
    · exact hkm.1 h1.symm
    · exact ih (fun y hy => hkeyed y (by simp [hy])) hkm.2 h2

/-- Every dictionary child has a present key. -/
theorem twDict_keyed : ∀ xs, twDictChildren xs = true →
    ∀ x ∈ xs, isKeyedChild x = true := by
  intro xs
  induction xs with
  | nil =>
    intro _ x hx
    simp at hx
  | cons x rest ih =>
    intro htw y hy
    simp only [twDictChildren, Bool.and_eq_true] at htw
    rcases List.mem_cons.mp hy with rfl | hy2
    · exact htw.1.1.1.1.1
    · exact ih htw.2 y hy2

/-- Dictionary children carry pairwise-distinct keys. -/
theorem twDict_keys_nodup : ∀ xs, twDictChildren xs = true → (xs.map childKey).Nodup := by
  intro xs
  induction xs with
  | nil =>
    intro _
    simp
  | cons x rest ih =>
    intro htw
    simp only [twDictChildren, Bool.and_eq_true] at htw
    obtain ⟨⟨⟨⟨⟨_, _⟩, _⟩, hkm⟩, _⟩, hrest⟩ := htw
    rw [Bool.not_eq_true'] at hkm
    simp only [List.map_cons, List.nodup_cons]
    exact ⟨keyMem_false_notMem (childKey x) rest (twDict_keyed rest hrest) hkm, ih hrest⟩

/-- The `"!type"` discriminator never occurs among dictionary children's
keys. -/
theorem twDict_no_bang : ∀ xs, twDictChildren xs = true →
    keyBangType ∉ xs.map childKey := by
  intro xs
  induction xs with
  | nil =>
    intro _
    simp
  | cons x rest ih =>
    intro htw
    simp only [twDictChildren, Bool.and_eq_true] at htw
    obtain ⟨⟨⟨⟨⟨_, _⟩, hbang⟩, _⟩, _⟩, hrest⟩ := htw
    rw [Bool.not_eq_true', decide_eq_false_iff_not] at hbang
    simp only [List.map_cons, List.mem_cons]
    rintro (h1 | h2)
    · exact hbang h1.symm
    · exact ih hrest h2

/-- Textually admissible trees satisfy the self-equality discipline. -/
theorem tw_selfEqOk_aux (n : Nat) :
    (∀ t, sizeOf t ≤ n → twTree t = true → selfEqOk t = true) ∧
    (∀ xs : List PyVal, sizeOf xs ≤ n →
      twListChildren xs = true ∨ twDictChildren xs = true → selfEqOkList xs = true) := by
  induction n using Nat.strong_induction_on with
  | _ n ih =>
    have hlist : ∀ xs : List PyVal, sizeOf xs ≤ n →
        twListChildren xs = true ∨ twDictChildren xs = true → selfEqOkList xs = true := by
      intro xs hsz htw
      cases xs with
      | nil => rfl
      | cons x rest =>
        have hx : sizeOf x < n := by
          have : sizeOf x < sizeOf (x :: rest) := by
            simp
            try omega
          omega
        have hrest : sizeOf rest < n := by
          have : sizeOf rest < sizeOf (x :: rest) := by
            simp
            try omega
          omega
        have hcomp : twTree x = true ∧
            (twListChildren rest = true ∨ twDictChildren rest = true) := by
          rcases htw with h | h
          · simp only [twListChildren, Bool.and_eq_true] at h
            exact ⟨h.1.2, Or.inl h.2⟩
          · simp only [twDictChildren, Bool.and_eq_true] at h
            exact ⟨h.1.2, Or.inr h.2⟩
        rw [selfEqOkList, Bool.and_eq_true]
        exact ⟨(ih (sizeOf x) hx).1 x le_rfl hcomp.1,
               (ih (sizeOf rest) hrest).2 rest le_rfl hcomp.2⟩
    refine ⟨?_, hlist⟩
    intro t hsz htw
    cases t <;> simp only [twTree, Bool.false_eq_true] at htw
    case ptree k v ty anyType =>
      rw [Bool.and_eq_true] at htw
      obtain ⟨_, htw⟩ := htw
      have hv : sizeOf v < n := by
        have : sizeOf v < sizeOf (PyVal.ptree k v ty anyType) := by
          simp
          try omega
        omega
      cases ty <;> cases v <;> simp only [twPayload, Bool.false_eq_true] at htw
      case null.pynone => rfl
      case bool.pybool b => rfl
      case number.pyfloat bits =>
        rw [Bool.and_eq_true] at htw
        simpa [selfEqOk] using htw.2
      case string.istr vo => simp [selfEqOk]
      case list.pylist xs =>
        rw [selfEqOk]
        apply hlist xs _ (Or.inl htw)
        have : sizeOf (PyVal.pylist xs) = 1 + sizeOf xs := by simp
        omega
      case dictionary.pylist xs =>
        rw [selfEqOk]
        apply hlist xs _ (Or.inr htw)
        have : sizeOf (PyVal.pylist xs) = 1 + sizeOf xs := by simp
        omega

/-- Version tuples of integers serialize to integer literals and parse
back unchanged (no hook runs on array elements). -/
theorem version_dumps_loads :
    ∀ ver : List PyVal, (∀ x ∈ ver, ∃ m : Int, x = .pyint m) →
    ∃ vj, JSONEncoder.dumpsList ver = .ok vj ∧ JSONDecoder.loadsList vj = .ok ver := by
  intro ver
  induction ver with
  | nil =>
    intro _
    exact ⟨[], by simp [JSONEncoder.dumpsList, pure, Except.pure],
      by simp [JSONDecoder.loadsList, pure, Except.pure]⟩
  | cons x rest ih =>
    intro hx
    obtain ⟨m, rfl⟩ := hx x (by simp)
    obtain ⟨vj, hd, hl⟩ := ih (fun y hy => hx y (by simp [hy]))
    refine ⟨.int m :: vj, ?_, ?_⟩
    · simp [JSONEncoder.dumpsList, JSONEncoder.dumps, hd,
            Except.bind, Bind.bind, Pure.pure, Except.pure, pure]
    · simp [JSONDecoder.loadsList, JSONDecoder.loads, hl,
            Except.bind, Bind.bind, Pure.pure, Except.pure, pure]

/-- Version tuples of integers satisfy the self-equality discipline. -/
theorem version_selfEqOkList :
    ∀ ver : List PyVal, (∀ x ∈ ver, ∃ m : Int, x = .pyint m) → selfEqOkList ver = true := by
  intro ver
  induction ver with
  | nil =>
    intro _
    rfl
  | cons x rest ih =>
    intro hx
    obtain ⟨m, rfl⟩ := hx x (by simp)
    rw [selfEqOkList, Bool.and_eq_true]
    exact ⟨rfl, ih (fun y hy => hx y (by simp [hy]))⟩

/-- Shape inversion for admissible Null payloads. -/
theorem twPayload_null_inv : ∀ v, twPayload PTType.null v = true → v = PyVal.pynone := by
  intro v h
  cases v <;> simp [twPayload] at h
  rfl

/-- Shape inversion for admissible Bool payloads. -/
theorem twPayload_bool_inv : ∀ v, twPayload PTType.bool v = true →
    ∃ b, v = PyVal.pybool b := by
  intro v h
  cases v <;> simp [twPayload] at h
  case pybool b => exact ⟨b, rfl⟩

/-- Shape inversion for admissible Number payloads. -/
theorem twPayload_number_inv : ∀ v, twPayload PTType.number v = true →
    ∃ bits, v = PyVal.pyfloat bits ∧ bits.length = 8 ∧ isNanBits bits = false := by
  intro v h
  cases v <;> simp [twPayload] at h
  case pyfloat bits => exact ⟨bits, rfl, h.1, h.2⟩

/-- Shape inversion for admissible String payloads. -/
theorem twPayload_string_inv : ∀ v, twPayload PTType.string v = true →
    ∃ bs, v = PyVal.istr (some bs) ∧ validUtf8 bs = true := by
  intro v h
  cases v with
  | pynone => simp [twPayload] at h
  | pybool b => simp [twPayload] at h
  | pyint m => simp [twPayload] at h
  | pyfloat bits => simp [twPayload] at h
  | pystr s => simp [twPayload] at h
  | pybytes bs => simp [twPayload] at h
  | pylist xs => simp [twPayload] at h
  | pydict kvs => simp [twPayload] at h
  | istr vo =>
    cases vo with
    | none => simp [twPayload] at h
    | some bs =>
      refine ⟨bs, rfl, ?_⟩
      simpa [twPayload] using h
  | ptree k2 v2 ty2 a2 => simp [twPayload] at h
  | msettings d ver q => simp [twPayload] at h

/-- Shape inversion for admissible List payloads. -/
theorem twPayload_list_inv : ∀ v, twPayload PTType.list v = true →
    ∃ cs, v = PyVal.pylist cs ∧ twListChildren cs = true := by
  intro v h
  cases v <;> simp [twPayload] at h
  case pylist cs => exact ⟨cs, rfl, h⟩

/-- Shape inversion for admissible Dictionary payloads. -/
theorem twPayload_dict_inv : ∀ v, twPayload PTType.dictionary v = true →
    ∃ cs, v = PyVal.pylist cs ∧ twDictChildren cs = true := by
  intro v h
  cases v <;> simp [twPayload] at h
  case pylist cs => exact ⟨cs, rfl, h⟩

/-- Shape inversion for keyed children. -/
theorem isKeyedChild_inv : ∀ x, isKeyedChild x = true →
    ∃ kb vx tyx ax, x = PyVal.ptree (some kb) vx tyx ax := by
  intro x h
  cases x <;> simp [isKeyedChild] at h
  case ptree kx vx tyx ax =>
    cases kx with
    | none => simp [isKeyedChild] at h
    | some kb => exact ⟨kb, vx, tyx, ax, rfl⟩

/-- Shape inversion for keyless Dictionary children of a List node. -/
theorem isNoneKeyDict_inv : ∀ x, isNoneKeyDict x = true →
    ∃ vx ax, x = PyVal.ptree none vx PTType.dictionary ax := by
  intro x h
  cases x with
  | pynone => simp [isNoneKeyDict] at h
  | pybool b => simp [isNoneKeyDict] at h
  | pyint m => simp [isNoneKeyDict] at h
  | pyfloat bits => simp [isNoneKeyDict] at h
  | pystr s => simp [isNoneKeyDict] at h
  | pybytes bs => simp [isNoneKeyDict] at h
  | pylist xs => simp [isNoneKeyDict] at h
  | pydict kvs => simp [isNoneKeyDict] at h
  | istr vo => simp [isNoneKeyDict] at h
  | ptree kx vx tyx ax =>
    cases kx with
    | none =>
      cases tyx <;> simp [isNoneKeyDict] at h
      exact ⟨vx, ax, rfl⟩
    | some kb => simp [isNoneKeyDict] at h
  | msettings d ver q => simp [isNoneKeyDict] at h

/-- Any-type flag inversion for admissible trees. -/
theorem twTree_ptree_inv (k : Option (List Nat)) (v : PyVal) (ty : PTType) (a : Bool)
    (h : twTree (PyVal.ptree k v ty a) = true) : a = false ∧ twPayload ty v = true := by
  rw [twTree, Bool.and_eq_true, Bool.not_eq_true'] at h
  exact h

/-- Textually admissible trees round-trip: the encoder succeeds, and
parsing the emitted document back (with the hook applied where the code
applies it) restores the tree with its own key erased — the encoder never
writes a node's own key, so only children recover theirs.  For
Dictionary-typed nodes the document is an object, so the parse alone
already performs the conversion. -/
theorem textual_tree_roundtrip_aux : ∀ n : Nat, ∀ t : PyVal, sizeOf t ≤ n →
    twTree t = true →
    ∃ j, JSONEncoder.dumps t = .ok j ∧
      (JSONDecoder.loads j >>= JSONDecoder.object_hook) = .ok (t.setKey none) ∧
      (∀ k2 xs2, t = PyVal.ptree k2 (PyVal.pylist xs2) PTType.dictionary false →
        JSONDecoder.loads j = .ok (t.setKey none)) := by
  intro n
  induction n using Nat.strong_induction_on with
  | _ n ih =>
    intro t hsz htw
    cases t <;> simp only [twTree, Bool.false_eq_true] at htw
    case ptree k v ty anyType =>
      rw [Bool.and_eq_true, Bool.not_eq_true'] at htw
      obtain ⟨ha, hpl⟩ := htw
      subst ha
      cases ty
      case null =>
        have hv := twPayload_null_inv v hpl
        subst hv
        refine ⟨.null, ?_, ?_, ?_⟩
        · simp [JSONEncoder.dumps, pure, Except.pure]
        · simp [JSONDecoder.loads, JSONDecoder.object_hook, PyVal.setKey,
                Except.bind, Bind.bind, Pure.pure, Except.pure, pure]
        · intro k2 xs2 heq
          simp at heq
      case bool =>
        obtain ⟨b, rfl⟩ := twPayload_bool_inv v hpl
        refine ⟨.bool b, ?_, ?_, ?_⟩
        · simp [JSONEncoder.dumps, pure, Except.pure]
        · simp [JSONDecoder.loads, JSONDecoder.object_hook, PyVal.setKey,
                Except.bind, Bind.bind, Pure.pure, Except.pure, pure]
        · intro k2 xs2 heq
          simp at heq
      case number =>
        obtain ⟨bits, rfl, hlen, hnan⟩ := twPayload_number_inv v hpl
        refine ⟨.float bits, ?_, ?_, ?_⟩
        · simp [JSONEncoder.dumps, pure, Except.pure]
        · simp [JSONDecoder.loads, JSONDecoder.object_hook, PyVal.setKey,
                Except.bind, Bind.bind, Pure.pure, Except.pure, pure]
        · intro k2 xs2 heq
          simp at heq
      case string =>
        obtain ⟨bs, rfl, hval⟩ := twPayload_string_inv v hpl
        refine ⟨.str bs, ?_, ?_, ?_⟩
        · simp [JSONEncoder.dumps, hval, pure, Except.pure]
        · simp [JSONDecoder.loads, JSONDecoder.object_hook, PyVal.setKey,
                Except.bind, Bind.bind, Pure.pure, Except.pure, pure]
        · intro k2 xs2 heq
          simp at heq
      case list =>
        obtain ⟨cs, rfl, hcl⟩ := twPayload_list_inv v hpl
        have hsz1 : sizeOf (PyVal.pylist cs) <
            sizeOf (PyVal.ptree k (PyVal.pylist cs) PTType.list false) := by
          simp
          try omega
        have hsz2 : sizeOf (PyVal.pylist cs) = 1 + sizeOf cs := by simp
        have hcsn : sizeOf cs < n := by omega
        have hl : ∀ ys : List PyVal, sizeOf ys ≤ sizeOf cs → twListChildren ys = true →
            ∃ js, JSONEncoder.dumpsList ys = .ok js ∧
              JSONDecoder.loadsList js = .ok ys := by
          intro ys
          induction ys with
          | nil =>
            intro _ _
            exact ⟨[], by simp [JSONEncoder.dumpsList, pure, Except.pure],
              by simp [JSONDecoder.loadsList, pure, Except.pure]⟩
          | cons y rest ihy =>
            intro hsz3 htwl
            simp only [twListChildren, Bool.and_eq_true] at htwl
            obtain ⟨⟨hshape, htwy⟩, hrest⟩ := htwl
            have hsc : sizeOf (y :: rest) = 1 + sizeOf y + sizeOf rest := by simp
            have hyn : sizeOf y < n := by omega
            obtain ⟨vy, ay, hy⟩ := isNoneKeyDict_inv y hshape
            subst hy
            obtain ⟨hay, hply⟩ := twTree_ptree_inv none vy PTType.dictionary ay htwy
            subst hay
            obtain ⟨ds, hds, _⟩ := twPayload_dict_inv vy hply
            subst hds
            obtain ⟨j, hdump, _, hdict⟩ := ih (sizeOf
              (PyVal.ptree none (PyVal.pylist ds) PTType.dictionary false)) hyn _ le_rfl htwy
            have hload := hdict none ds rfl
            rw [PyVal.setKey] at hload
            obtain ⟨js, hdl, hll⟩ := ihy (by omega) hrest
            refine ⟨j :: js, ?_, ?_⟩
            · simp [JSONEncoder.dumpsList, hdump, hdl,
                    Except.bind, Bind.bind, Pure.pure, Except.pure, pure]
            · simp [JSONDecoder.loadsList, hload, hll,
                    Except.bind, Bind.bind, Pure.pure, Except.pure, pure]
        obtain ⟨js, hdl, hll⟩ := hl cs le_rfl hcl
        refine ⟨.arr js, ?_, ?_, ?_⟩
        · simp [JSONEncoder.dumps, hdl,
                Except.bind, Bind.bind, Pure.pure, Except.pure, pure]
        · simp [JSONDecoder.loads, hll, JSONDecoder.object_hook, PyVal.setKey,
                Except.bind, Bind.bind, Pure.pure, Except.pure, pure]
        · intro k2 xs2 heq
          simp at heq
      case dictionary =>
        obtain ⟨cs, rfl, hdc⟩ := twPayload_dict_inv v hpl
        have hsz1 : sizeOf (PyVal.pylist cs) <
            sizeOf (PyVal.ptree k (PyVal.pylist cs) PTType.dictionary false) := by
          simp
          try omega
        have hsz2 : sizeOf (PyVal.pylist cs) = 1 + sizeOf cs := by simp
        have hcsn : sizeOf cs < n := by omega
        have hd : ∀ ys : List PyVal, sizeOf ys ≤ sizeOf cs → twDictChildren ys = true →
            ∃ prs cprs, JSONEncoder.dumpsDictItems ys = .ok prs ∧
              JSONDecoder.loadsPairs prs = .ok cprs ∧
              prs.map Prod.fst = ys.map childKey ∧
              cprs.map Prod.fst = ys.map childKey ∧
              JSONDecoder.hookItems cprs = .ok ys := by
          intro ys
          induction ys with
          | nil =>
            intro _ _
            exact ⟨[], [], by simp [JSONEncoder.dumpsDictItems, pure, Except.pure],
              by simp [JSONDecoder.loadsPairs, pure, Except.pure], rfl, rfl,
              by simp [JSONDecoder.hookItems, pure, Except.pure]⟩
          | cons y rest ihy =>
            intro hsz3 htwd
            simp only [twDictChildren, Bool.and_eq_true] at htwd
            obtain ⟨⟨⟨⟨⟨hkeyed, hvalid⟩, hbang⟩, hkm⟩, htwy⟩, hrest⟩ := htwd
            have hsc : sizeOf (y :: rest) = 1 + sizeOf y + sizeOf rest := by simp
            have hyn : sizeOf y < n := by omega
            obtain ⟨kb, vy, tyy, ay, hy⟩ := isKeyedChild_inv y hkeyed
            subst hy
            have hvalid2 : validUtf8 kb = true := by simpa [childKey] using hvalid
            obtain ⟨j, hdump, hcomp, _⟩ := ih (sizeOf
              (PyVal.ptree (some kb) vy tyy ay)) hyn _ le_rfl htwy
            rw [PyVal.setKey, bind_eq_ok] at hcomp
            obtain ⟨w, hw, hhookw⟩ := hcomp
            obtain ⟨prs2, cprs2, hdi2, hlp2, hkeys1, hkeys2, hhi2⟩ := ihy (by omega) hrest
            refine ⟨(kb, j) :: prs2, (kb, w) :: cprs2, ?_, ?_, ?_, ?_, ?_⟩
            · simp [JSONEncoder.dumpsDictItems, hvalid2, hdump, hdi2,
                    Except.bind, Bind.bind, Pure.pure, Except.pure, pure]
            · simp [JSONDecoder.loadsPairs, hw, hlp2,
                    Except.bind, Bind.bind, Pure.pure, Except.pure, pure]
            · simp [childKey, hkeys1]
            · simp [childKey, hkeys2]
            · simp [JSONDecoder.hookItems, hhookw, hhi2, PyVal.setKey,
                    Except.bind, Bind.bind, Pure.pure, Except.pure, pure]
        obtain ⟨prs, cprs, hdi, hlp, hkeys1, hkeys2, hhi⟩ := hd cs le_rfl hdc
        have hnodup : (cs.map childKey).Nodup := twDict_keys_nodup cs hdc
        have hb1 : buildDict prs = prs := buildDict_nodup prs (by rw [hkeys1]; exact hnodup)
        have hb2 : buildDict cprs = cprs := buildDict_nodup cprs (by rw [hkeys2]; exact hnodup)
        have hnb : dictLookup keyBangType cprs = none :=
          dictLookup_eq_none _ _ (by rw [hkeys2]; exact twDict_no_bang cs hdc)
        have hloadj : JSONDecoder.loads (.obj prs) =
            .ok (PyVal.ptree none (PyVal.pylist cs) PTType.dictionary false) := by
          rw [JSONDecoder.loads]
          simp only [hlp, Except.bind, Bind.bind]
          rw [hb2]
          simp [JSONDecoder.object_hook, hnb, hhi,
                Except.bind, Bind.bind, Pure.pure, Except.pure, pure]
        refine ⟨.obj prs, ?_, ?_, ?_⟩
        · rw [JSONEncoder.dumps]
          simp [hdi, hb1, Except.bind, Bind.bind, Pure.pure, Except.pure, pure]
        · simp [hloadj, JSONDecoder.object_hook, PyVal.setKey,
                Except.bind, Bind.bind, Pure.pure, Except.pure, pure]
        · intro k2 xs2 heq
          simpa [PyVal.setKey] using hloadj

/-- Claim C2 is corrected by the code (see
`textual_roundtrip_counterexample`): the textual round trip restores the
value only on the admissible fragment `twTop` — a Dictionary-rooted tree
(or a `ModSettings` envelope around one, with integer version components
and boolean quality) with `any_type` false everywhere, non-NaN Numbers,
present valid-UTF-8 Strings, List children that are keyless Dictionary
nodes, and Dictionary children keyed by distinct valid-UTF-8 keys other
than `"!type"`.  On that fragment the round trip is exact — Numbers come
back bit-identical, not merely within textual float precision, because
`repr`/parse of a double is lossless — and the result compares equal to
the original under the defined equality. -/
theorem textual_roundtrip (V : PyVal) (h : twTop V) :
    textualRoundTrip V = .ok V ∧ pyEq V V = .ok true := by
  rcases h with ⟨xs, rfl, htw⟩ | ⟨data, ver, q, rfl, ⟨xs, hdata⟩, htwd, hver, b, rfl⟩
  · obtain ⟨j, hdump, _, hdict⟩ := textual_tree_roundtrip_aux
      (sizeOf (PyVal.ptree none (PyVal.pylist xs) PTType.dictionary false)) _ le_rfl htw
    have hload := hdict none xs rfl
    rw [PyVal.setKey] at hload
    constructor
    · simp [textualRoundTrip, hdump, hload,
            Except.bind, Bind.bind, Pure.pure, Except.pure, pure]
    · exact pyEq_refl _ ((tw_selfEqOk_aux
        (sizeOf (PyVal.ptree none (PyVal.pylist xs) PTType.dictionary false))).1 _ le_rfl htw)
  · subst hdata
    obtain ⟨j, hdump, _, hdict⟩ := textual_tree_roundtrip_aux
      (sizeOf (PyVal.ptree none (PyVal.pylist xs) PTType.dictionary false)) _ le_rfl htwd
    have hload := hdict none xs rfl
    rw [PyVal.setKey] at hload
    obtain ⟨vj, hvd, hvl⟩ := version_dumps_loads ver hver
    have hqb : JSONEncoder.dumps (PyVal.pybool b) = .ok (.bool b) := by
      simp [JSONEncoder.dumps, pure, Except.pure]
    have hdV : JSONEncoder.dumps (PyVal.msettings
        (PyVal.ptree none (PyVal.pylist xs) PTType.dictionary false) ver (PyVal.pybool b)) =
        .ok (.obj [(keyBangType, .str strModSettings), (keyVersion, .arr vj),
                   (keyHasQuality, .bool b), (keyData, j)]) := by
      rw [JSONEncoder.dumps]
      simp only [hvd, hqb, hdump, Except.bind, Bind.bind, Pure.pure, Except.pure, pure]
    have hpairs : JSONDecoder.loadsPairs
        [(keyBangType, JValue.str strModSettings), (keyVersion, JValue.arr vj),
         (keyHasQuality, JValue.bool b), (keyData, j)] =
        .ok [(keyBangType, PyVal.pystr strModSettings), (keyVersion, PyVal.pylist ver),
             (keyHasQuality, PyVal.pybool b),
             (keyData, PyVal.ptree none (PyVal.pylist xs) PTType.dictionary false)] := by
      simp [JSONDecoder.loadsPairs, JSONDecoder.loads, hvl, hload,
            Except.bind, Bind.bind, Pure.pure, Except.pure, pure]
    have hbuild : buildDict
        [(keyBangType, PyVal.pystr strModSettings), (keyVersion, PyVal.pylist ver),
         (keyHasQuality, PyVal.pybool b),
         (keyData, PyVal.ptree none (PyVal.pylist xs) PTType.dictionary false)] =
        [(keyBangType, PyVal.pystr strModSettings), (keyVersion, PyVal.pylist ver),
         (keyHasQuality, PyVal.pybool b),
         (keyData, PyVal.ptree none (PyVal.pylist xs) PTType.dictionary false)] := by
      simp [buildDict, insertPair, List.foldl, keyBangType, keyVersion, keyHasQuality, keyData]
    have hhook : JSONDecoder.object_hook (.pydict
        [(keyBangType, PyVal.pystr strModSettings), (keyVersion, PyVal.pylist ver),
         (keyHasQuality, PyVal.pybool b),
         (keyData, PyVal.ptree none (PyVal.pylist xs) PTType.dictionary false)]) =
        .ok (PyVal.msettings (PyVal.ptree none (PyVal.pylist xs) PTType.dictionary false)
              ver (PyVal.pybool b)) := by
      simp [JSONDecoder.object_hook, dictLookup, keyBangType, keyVersion, keyHasQuality,
            keyData, strModSettings, pyEq, Except.bind, Bind.bind, Pure.pure, Except.pure, pure]
    constructor
    · rw [textualRoundTrip]
      simp only [hdV, Except.bind, Bind.bind]
      rw [JSONDecoder.loads]
      simp only [hpairs, Except.bind, Bind.bind]
      rw [hbuild]
      exact hhook
    · apply pyEq_refl
      have h1 : selfEqOk (PyVal.ptree none (PyVal.pylist xs) PTType.dictionary false) = true :=
        (tw_selfEqOk_aux
          (sizeOf (PyVal.ptree none (PyVal.pylist xs) PTType.dictionary false))).1 _ le_rfl htwd
      have h2 : selfEqOkList ver = true := version_selfEqOkList ver hver
      simp only [selfEqOk] at h1
      simp [selfEqOk, h1, h2]

/-- Witness for `textual_roundtrip`: a `ModSettings` envelope holding one
string setting `"foo": "bar"` at version `(1, 1, 110, 0)` with
`has_quality` true round-trips through the textual form exactly and
compares equal to itself. -/
theorem textual_roundtrip_witness :
    twTop (PyVal.msettings
      (PyVal.ptree none (PyVal.pylist
        [PyVal.ptree (some [102, 111, 111]) (PyVal.istr (some [98, 97, 114]))
          PTType.string false]) PTType.dictionary false)
      [PyVal.pyint 1, PyVal.pyint 1, PyVal.pyint 110, PyVal.pyint 0] (PyVal.pybool true)) ∧
    textualRoundTrip (PyVal.msettings
      (PyVal.ptree none (PyVal.pylist
        [PyVal.ptree (some [102, 111, 111]) (PyVal.istr (some [98, 97, 114]))
          PTType.string false]) PTType.dictionary false)
      [PyVal.pyint 1, PyVal.pyint 1, PyVal.pyint 110, PyVal.pyint 0] (PyVal.pybool true)) =
      .ok (PyVal.msettings
      (PyVal.ptree none (PyVal.pylist
        [PyVal.ptree (some [102, 111, 111]) (PyVal.istr (some [98, 97, 114]))
          PTType.string false]) PTType.dictionary false)
      [PyVal.pyint 1, PyVal.pyint 1, PyVal.pyint 110, PyVal.pyint 0] (PyVal.pybool true)) ∧
    pyEq (PyVal.msettings
      (PyVal.ptree none (PyVal.pylist
        [PyVal.ptree (some [102, 111, 111]) (PyVal.istr (some [98, 97, 114]))
          PTType.string false]) PTType.dictionary false)
      [PyVal.pyint 1, PyVal.pyint 1, PyVal.pyint 110, PyVal.pyint 0] (PyVal.pybool true))
      (PyVal.msettings
      (PyVal.ptree none (PyVal.pylist
        [PyVal.ptree (some [102, 111, 111]) (PyVal.istr (some [98, 97, 114]))
          PTType.string false]) PTType.dictionary false)
      [PyVal.pyint 1, PyVal.pyint 1, PyVal.pyint 110, PyVal.pyint 0] (PyVal.pybool true)) =
      .ok true := by
  have h : twTop (PyVal.msettings
      (PyVal.ptree none (PyVal.pylist
        [PyVal.ptree (some [102, 111, 111]) (PyVal.istr (some [98, 97, 114]))
          PTType.string false]) PTType.dictionary false)
      [PyVal.pyint 1, PyVal.pyint 1, PyVal.pyint 110, PyVal.pyint 0] (PyVal.pybool true)) := by
    refine Or.inr ⟨_, _, _, rfl, ⟨_, rfl⟩, by decide, ?_, ⟨true, rfl⟩⟩
    intro x hx
    simp only [List.mem_cons, List.not_mem_nil, or_false] at hx
    rcases hx with rfl | rfl | rfl | rfl
    · exact ⟨1, rfl⟩
    · exact ⟨1, rfl⟩
    · exact ⟨110, rfl⟩
    · exact ⟨0, rfl⟩
  exact ⟨h, (textual_roundtrip _ h).1, (textual_roundtrip _ h).2⟩

/-- Claim C2 as stated fails on values the binary decoder constructs.  The
first group: the decoder accepts `any_type = 1` (byte stream
`[5, 1, 0, 0, 0, 0]`, an empty Dictionary with `any_type` true), but the
textual encoder never writes the flag and the decoder's hook leaves it
false, so the round-tripped value compares unequal.  The second group: the
decoder accepts a String node with an absent payload (byte stream
`[3, 0, 1]`); it serializes to textual `null`, which parses back to a bare
Python `None` (no hook runs on a top-level scalar), and comparing the
original `PropertyTree` against `None` raises `AttributeError` inside
`__eq__` rather than returning a value equal to `V`. -/
theorem textual_roundtrip_counterexample :
    (PropertyTree.load [5, 1, 0, 0, 0, 0] =
        .ok (.ptree none (.pylist []) .dictionary true, []) ∧
      textualRoundTrip (.ptree none (.pylist []) .dictionary true) =
        .ok (.ptree none (.pylist []) .dictionary false) ∧
      pyEq (.ptree none (.pylist []) .dictionary true)
        (.ptree none (.pylist []) .dictionary false) = .ok false) ∧
    (PropertyTree.load [3, 0, 1] =
        .ok (.ptree none (.istr none) .string false, []) ∧
      textualRoundTrip (.ptree none (.istr none) .string false) = .ok .pynone ∧
      pyEq (.ptree none (.istr none) .string false) PyVal.pynone =
        .error .attributeError) := by
  refine ⟨⟨?_, ?_, ?_⟩, ⟨?_, ?_, ?_⟩⟩
  · simp [PropertyTree.load, PropertyTree.loadF, PropertyTree.loadItemsF, readExact,
          PTType.ofTag, leDec, Except.bind, Except.map, Bind.bind, Functor.map,
          Pure.pure, Except.pure, pure]
  · simp [textualRoundTrip, JSONEncoder.dumps, JSONEncoder.dumpsDictItems, buildDict,
          List.foldl, JSONDecoder.loads, JSONDecoder.loadsPairs, JSONDecoder.object_hook,
          JSONDecoder.hookItems, dictLookup, Except.bind, Bind.bind, Pure.pure,
          Except.pure, pure]
  · simp [pyEq, Except.bind, Bind.bind, Pure.pure, Except.pure, pure]
  · simp [PropertyTree.load, PropertyTree.loadF, ImmutableString.load, streamRead, readExact,
          PTType.ofTag, Except.bind, Except.map, Bind.bind, Functor.map,
          Pure.pure, Except.pure, pure]
  · simp [textualRoundTrip, JSONEncoder.dumps, JSONDecoder.loads,
          Except.bind, Bind.bind, Pure.pure, Except.pure, pure]
  · simp [pyEq]
